import Mathlib

/-!
Formal model of the icechat CRDT replication core.

This file is a shallow embedding, in Lean 4, of the data model and the
operations of the icechat repository: the CRDT stamps and the merge kernel
(`entity/src/crdt/`), the patch taxonomy (`entity/src/patch/`), the
per-channel replication engine (`src/database/sync.rs`), the sqlite-backed
sync data source (`src/database/sqlite_sync.rs`), the database operations
around channels and the initial snapshot (`src/database/mod.rs`), and the
length-prefixed framing (`src/fragmentable.rs`).

Modelling conventions:
* Rust `i32` fields are modelled as `Int`; arithmetic on generations and
  row ids is modelled without wrap-around.
* Byte vectors (`Vec<u8>`) are modelled as `List Nat`, UUIDs as a wrapped
  `Nat` (the source splits a UUID into four `i32` columns and compares all
  four columns for equality, which is equivalent to equality of the UUID
  itself since the split is bijective).
* `bincode`-serialized patch payloads stored in the `sync` and
  `initial_sync` tables are modelled structurally as the patch itself;
  serialization is not modelled.
* SQL tables are modelled as lists of row structures in insertion order;
  sqlite auto-increment row ids are modelled as `max existing id + 1`.
* Async functions are modelled as pure functions; fallible operations on
  the abstract sync data source return `Except`.
-/

namespace Icechat

/-- Author id (`entity/src/crdt/mod.rs`, `pub struct Author(pub i32)`):
a 32-bit integer derived from the Ed25519 certificate, modelled as `Int`. -/
@[ext]
structure Author where
  val : Int
deriving DecidableEq, Repr

theorem Author.val_injective : Function.Injective Author.val := fun a b h => by
  cases a; cases b; cases h; rfl

/-- The derived `Ord` on `Author` compares the wrapped integer. -/
instance : LinearOrder Author :=
  LinearOrder.lift' Author.val Author.val_injective

theorem Author.lt_val_iff (a b : Author) : a < b ↔ a.val < b.val := Iff.rfl

theorem Author.le_val_iff (a b : Author) : a ≤ b ↔ a.val ≤ b.val := Iff.rfl

/-- `CrdtWritable` stamp (`entity/src/crdt/mod.rs` lines 35-47, identical
definition in `entity/src/crdt/writable.rs`): a generation counter plus the
author of the last write. -/
@[ext]
structure CrdtWritable where
  generation : Int
  author : Author
deriving DecidableEq, Repr

/-- The derived `Ord` on `CrdtWritable` is lexicographic on
`(generation, author)`, in field declaration order. -/
instance : LinearOrder CrdtWritable :=
  LinearOrder.lift' (fun c => toLex (c.generation, c.author.val))
    (fun a b h => by
      have h' := toLex_inj.mp h
      simp only [Prod.mk.injEq] at h'
      exact CrdtWritable.ext h'.1 (Author.ext h'.2))

theorem CrdtWritable.lt_lex_iff (a b : CrdtWritable) :
    a < b ↔ a.generation < b.generation ∨
      (a.generation = b.generation ∧ a.author.val < b.author.val) :=
  Prod.Lex.lt_iff _ _

theorem CrdtWritable.le_lex_iff (a b : CrdtWritable) :
    a ≤ b ↔ a.generation < b.generation ∨
      (a.generation = b.generation ∧ a.author.val ≤ b.author.val) :=
  Prod.Lex.le_iff _ _

/-- `Default` for `CrdtWritable`: both fields zero. -/
def CrdtWritable.default : CrdtWritable := ⟨0, ⟨0⟩⟩

instance : Inhabited CrdtWritable := ⟨CrdtWritable.default⟩

/-- `CrdtOrd::next` for `CrdtWritable` (`entity/src/crdt/mod.rs` lines
40-47): bump the generation and record the new author. -/
def CrdtWritable.next (c : CrdtWritable) (author : Author) : CrdtWritable :=
  { author := author, generation := c.generation + 1 }

/-- `CrdtWritableSequence` stamp (`entity/src/crdt/mod.rs` lines 49-53,
identical definition in `entity/src/crdt/sequence.rs`): a writable stamp
plus a per-conversation sequence number. -/
@[ext]
structure CrdtWritableSequence where
  writable : CrdtWritable
  sequence : Int
deriving DecidableEq, Repr

/-- The derived `Ord` on `CrdtWritableSequence` is lexicographic on
`(writable, sequence)`. -/
instance : LinearOrder CrdtWritableSequence :=
  LinearOrder.lift'
    (fun c => toLex (toLex (c.writable.generation, c.writable.author.val), c.sequence))
    (fun a b h => by
      have h' := toLex_inj.mp h
      simp only [Prod.mk.injEq] at h'
      have hw := toLex_inj.mp h'.1
      simp only [Prod.mk.injEq] at hw
      exact CrdtWritableSequence.ext
        (CrdtWritable.ext hw.1 (Author.ext hw.2)) h'.2)

theorem CrdtWritableSequence.lt_seq_lex_iff (a b : CrdtWritableSequence) :
    a < b ↔ a.writable < b.writable ∨
      (a.writable = b.writable ∧ a.sequence < b.sequence) := by
  have h := Prod.Lex.lt_iff
    (toLex (a.writable.generation, a.writable.author.val), a.sequence)
    (toLex (b.writable.generation, b.writable.author.val), b.sequence)
  refine h.trans ?_
  constructor
  · rintro (h₁ | ⟨h₁, h₂⟩)
    · exact Or.inl ((CrdtWritable.lt_lex_iff _ _).mpr ((Prod.Lex.lt_iff _ _).mp h₁))
    · refine Or.inr ⟨?_, h₂⟩
      have h₁' := toLex_inj.mp h₁
      simp only [Prod.mk.injEq] at h₁'
      exact CrdtWritable.ext h₁'.1 (Author.ext h₁'.2)
  · rintro (h₁ | ⟨h₁, h₂⟩)
    · exact Or.inl ((Prod.Lex.lt_iff _ _).mpr ((CrdtWritable.lt_lex_iff _ _).mp h₁))
    · exact Or.inr ⟨by rw [h₁], h₂⟩

/-- `Default` for `CrdtWritableSequence`: all fields zero. -/
def CrdtWritableSequence.default : CrdtWritableSequence := ⟨CrdtWritable.default, 0⟩

instance : Inhabited CrdtWritableSequence := ⟨CrdtWritableSequence.default⟩

/-- `CrdtOrd::next` for `CrdtWritableSequence` (`entity/src/crdt/mod.rs`
lines 54-61): advance the writable part, keep the sequence. -/
def CrdtWritableSequence.next (c : CrdtWritableSequence) (author : Author) :
    CrdtWritableSequence :=
  { writable := c.writable.next author, sequence := c.sequence }

/-- `CrdtAddOnly` stamp as defined in `entity/src/crdt/mod.rs` lines 63-69:
a unit struct, so the derived `Ord` makes any two values equal. -/
structure CrdtAddOnly where
deriving DecidableEq, Repr

instance : LinearOrder CrdtAddOnly where
  le _ _ := True
  lt _ _ := False
  le_refl _ := trivial
  le_trans _ _ _ _ _ := trivial
  le_antisymm a b _ _ := rfl
  le_total _ _ := Or.inl trivial
  lt_iff_le_not_le _ _ := by simp
  decidableLE _ _ := isTrue trivial
  decidableEq _ _ := isTrue rfl
  decidableLT _ _ := isFalse id

/-- `CrdtOrd::next` for `CrdtAddOnly` (`entity/src/crdt/mod.rs` lines
65-69): the identity, ignoring the author. -/
def CrdtAddOnly.next (_c : CrdtAddOnly) (_author : Author) : CrdtAddOnly :=
  CrdtAddOnly.mk

/-- The patch-side add-only stamp: the patch module (`entity/src/patch/member.rs`,
`entity/src/patch/attachment.rs`) uses a one-field tuple struct
`CrdtAddOnly(pub Author)` recording the author of the insertion. The spec's
stamp table gives this stamp the singleton (everything-equal) order and the
identity `next`, matching the unit-struct `CrdtOrd` instance above. -/
structure CrdtAddOnlyAuthor where
  author : Author
deriving DecidableEq, Repr

/-! ## The merge kernel (`entity/src/crdt/mod.rs`)

`CrdtValue::merge` and the transaction-level `CrdtValueTransaction::merge`
are generic over the value type; we model a value as a record of a logical
id, a stamp drawn from a linearly ordered type, and an opaque data part,
and a store as a list of such values (as the repository's own
`CrdtValueTransactionMock` does). -/

/-- A CRDT-bearing value: logical id `vid`, stamp `crdt`, business data
`data` (the trait `CrdtValue` of `entity/src/crdt/mod.rs`). -/
structure CrdtVal (ι σ π : Type) where
  vid : ι
  crdt : σ
  data : π
deriving DecidableEq, Repr

/-- `CrdtValue::merge` (`entity/src/crdt/mod.rs` lines 20-28): keep the
inbound value when there is no existing row, or when its stamp is strictly
greater than the existing row's stamp. -/
def CrdtVal.merge {ι σ π : Type} [LinearOrder σ] (self : CrdtVal ι σ π)
    (existent : Option (CrdtVal ι σ π)) : Option (CrdtVal ι σ π) :=
  match existent with
  | none => some self
  | some existent => if self.crdt > existent.crdt then some self else none

/-- `CrdtValueTransaction::existent` over a list store: the first row with
the given logical id, together with its index. -/
def storeExistent {ι σ π : Type} [DecidableEq ι] (store : List (CrdtVal ι σ π))
    (id : ι) : Option (Nat × CrdtVal ι σ π) :=
  (store.enum.find? (fun x => x.2.vid = id))

/-- `CrdtValueTransaction::save` over a list store: overwrite the row at
the existing index, or append a new row. -/
def storeSave {ι σ π : Type} (store : List (CrdtVal ι σ π)) (value : CrdtVal ι σ π)
    (existent : Option (Nat × CrdtVal ι σ π)) : List (CrdtVal ι σ π) :=
  match existent with
  | some (idx, _) => store.set idx value
  | none => store ++ [value]

/-- `CrdtValueTransaction::merge` (`entity/src/crdt/mod.rs` lines 89-98):
look up the existing row by logical id, apply the merge kernel, and save
the kept value; returns the kept value and the updated store. -/
def storeMerge {ι σ π : Type} [DecidableEq ι] [LinearOrder σ]
    (store : List (CrdtVal ι σ π)) (value : CrdtVal ι σ π) :
    Option (CrdtVal ι σ π) × List (CrdtVal ι σ π) :=
  let existentRowid := storeExistent store value.vid
  match value.merge (existentRowid.map Prod.snd) with
  | none => (none, store)
  | some kept => (some kept, storeSave store kept existentRowid)

/-- C1: for every inbound value and store state, the transaction merge
accepts and appends the value when no row with its logical id exists;
when a row exists it accepts, overwriting that row, exactly when the
inbound stamp is strictly greater than the stored stamp, and returns
`none` leaving the store unchanged when the inbound stamp is equal to or
smaller than the stored stamp. -/
theorem storeMerge_accept_iff_strictly_greater {ι σ π : Type} [DecidableEq ι]
    [LinearOrder σ] (store : List (CrdtVal ι σ π)) (v : CrdtVal ι σ π) :
    (storeExistent store v.vid = none →
      storeMerge store v = (some v, store ++ [v])) ∧
    (∀ idx e, storeExistent store v.vid = some (idx, e) →
      (e.crdt < v.crdt → storeMerge store v = (some v, store.set idx v)) ∧
      (v.crdt ≤ e.crdt → storeMerge store v = (none, store))) := by
  constructor
  · intro h
    simp [storeMerge, h, CrdtVal.merge, storeSave]
  · intro idx e h
    constructor
    · intro hlt
      simp [storeMerge, h, CrdtVal.merge, hlt, storeSave]
    · intro hle
      simp [storeMerge, h, CrdtVal.merge, not_lt_of_le hle]

/-- Witness for C1 at concrete inputs: a store holding one row with stamp 3
and inbound values with stamps 5 (accepted, overwriting) and stamp 2
(rejected, store unchanged), plus acceptance on an absent id. -/
theorem storeMerge_accept_iff_strictly_greater_witness :
    (storeMerge ([] : List (CrdtVal Nat Int Unit)) ⟨0, 5, ()⟩ = (some ⟨0, 5, ()⟩, [⟨0, 5, ()⟩]) ∧
     storeMerge [(⟨0, 3, ()⟩ : CrdtVal Nat Int Unit)] ⟨0, 5, ()⟩ =
       (some ⟨0, 5, ()⟩, [⟨0, 5, ()⟩]) ∧
     storeMerge [(⟨0, 3, ()⟩ : CrdtVal Nat Int Unit)] ⟨0, 2, ()⟩ =
       (none, [⟨0, 3, ()⟩])) := by
  refine ⟨?_, ?_, ?_⟩
  · exact (storeMerge_accept_iff_strictly_greater [] ⟨0, 5, ()⟩).1 (by decide)
  · exact ((storeMerge_accept_iff_strictly_greater [⟨0, 3, ()⟩] ⟨0, 5, ()⟩).2
      0 ⟨0, 3, ()⟩ (by decide)).1 (by decide)
  · exact ((storeMerge_accept_iff_strictly_greater [⟨0, 3, ()⟩] ⟨0, 2, ()⟩).2
      0 ⟨0, 3, ()⟩ (by decide)).2 (by decide)

/-! ## C6: stamp total order and successor -/

/-- Exactly one of `a < b`, `a = b`, `b < a` holds in a linear order. -/
theorem linearOrder_exactly_one {α : Type} [LinearOrder α] (a b : α) :
    (a < b ∧ a ≠ b ∧ ¬ b < a) ∨ (a = b ∧ ¬ a < b ∧ ¬ b < a) ∨
      (b < a ∧ a ≠ b ∧ ¬ a < b) := by
  rcases lt_trichotomy a b with h | h | h
  · exact Or.inl ⟨h, ne_of_lt h, lt_asymm h⟩
  · exact Or.inr (Or.inl ⟨h, by simp [h], by simp [h]⟩)
  · exact Or.inr (Or.inr ⟨h, (ne_of_lt h).symm, lt_asymm h⟩)

/-- C6 counterexample: the claim asserts `next(s, A) > s` for every stamp
type including `AddOnly`, but `CrdtOrd::next` for `CrdtAddOnly` is the
identity, so the successor is never strictly greater. -/
theorem addOnly_next_not_greater :
    ¬ (CrdtAddOnly.next CrdtAddOnly.mk ⟨0⟩ > CrdtAddOnly.mk) := by
  exact lt_irrefl _

/-- C6 (amended): for each stamp type exactly one of `a < b`, `a = b`,
`a > b` holds; `next(s, A) > s` holds for `Writable` and
`WritableSequence`, while for `AddOnly` the successor is the identity,
`next(s, A) = s`. -/
theorem stamp_total_order_and_next :
    (∀ a b : CrdtAddOnly,
      (a < b ∧ a ≠ b ∧ ¬ b < a) ∨ (a = b ∧ ¬ a < b ∧ ¬ b < a) ∨
        (b < a ∧ a ≠ b ∧ ¬ a < b)) ∧
    (∀ a b : CrdtWritable,
      (a < b ∧ a ≠ b ∧ ¬ b < a) ∨ (a = b ∧ ¬ a < b ∧ ¬ b < a) ∨
        (b < a ∧ a ≠ b ∧ ¬ a < b)) ∧
    (∀ a b : CrdtWritableSequence,
      (a < b ∧ a ≠ b ∧ ¬ b < a) ∨ (a = b ∧ ¬ a < b ∧ ¬ b < a) ∨
        (b < a ∧ a ≠ b ∧ ¬ a < b)) ∧
    (∀ (s : CrdtWritable) (A : Author), s.next A > s) ∧
    (∀ (s : CrdtWritableSequence) (A : Author), s.next A > s) ∧
    (∀ (s : CrdtAddOnly) (A : Author), s.next A = s) := by
  refine ⟨fun a b => linearOrder_exactly_one a b,
    fun a b => linearOrder_exactly_one a b,
    fun a b => linearOrder_exactly_one a b, ?_, ?_, ?_⟩
  · intro s A
    rw [gt_iff_lt, CrdtWritable.lt_lex_iff]
    exact Or.inl (by simp [CrdtWritable.next])
  · intro s A
    rw [gt_iff_lt, CrdtWritableSequence.lt_seq_lex_iff]
    refine Or.inl ?_
    rw [CrdtWritable.lt_lex_iff]
    exact Or.inl (by simp [CrdtWritableSequence.next, CrdtWritable.next])
  · intro s A
    cases s
    rfl

/-! ## Patch taxonomy (`entity/src/patch/`) -/

/-- A 128-bit UUID. The source stores it split into four `i32` columns and
always compares all four columns, which is equality of the UUID. -/
structure Uuid where
  val : Nat
deriving DecidableEq, Repr

/-- Public-key bytes (`patch::Key`, `entity/src/patch/mod.rs`): a byte
vector; a valid key has 32 bytes, `Key::zero()` is empty. -/
abbrev Key := List Nat

namespace patch

/-- `patch::Contact` (`entity/src/patch/contact.rs`). -/
structure Contact where
  key : Key
  name : String
  crdt : CrdtWritable
deriving DecidableEq, Repr

/-- `patch::Conversation` (`entity/src/patch/conversation.rs`). -/
structure Conversation where
  id : Uuid
  title : Option String
  crdt : CrdtWritable
deriving DecidableEq, Repr

/-- `patch::Member` (`entity/src/patch/member.rs`). -/
structure Member where
  key : Key
  conversation : Uuid
  crdt : CrdtAddOnlyAuthor
deriving DecidableEq, Repr

/-- `patch::NewTextMessage` (`entity/src/patch/message.rs`). The `from`
field is named `fromKey` because `from` is a Lean keyword. -/
structure NewTextMessage where
  id : Uuid
  fromKey : Key
  conversation : Uuid
  text : String
  crdt : CrdtWritableSequence
deriving DecidableEq, Repr

/-- `patch::MessageStatus` (`entity/src/patch/message.rs`). -/
structure MessageStatus where
  id : Uuid
  conversation : Uuid
  status : Int
  crdt : CrdtWritable
deriving DecidableEq, Repr

/-- `patch::Attachment` (`entity/src/patch/attachment.rs`). -/
structure Attachment where
  id : Uuid
  conversation : Uuid
  payload : Option (List Nat)
  crdt : CrdtAddOnlyAuthor
deriving DecidableEq, Repr

/-- `patch::NewAttachmentMessage` (`entity/src/patch/message.rs`). -/
structure NewAttachmentMessage where
  id : Uuid
  fromKey : Key
  conversation : Uuid
  filename : String
  attachment : Uuid
  crdt : CrdtWritableSequence
deriving DecidableEq, Repr

/-- `patch::NewMessage` (`entity/src/patch/message.rs`): the internal
projection of the two message wire forms; `attachment` is `none` for a
text message. -/
structure NewMessage where
  id : Uuid
  fromKey : Key
  conversation : Uuid
  text : String
  attachment : Option Uuid
  crdt : CrdtWritableSequence
deriving DecidableEq, Repr

end patch

/-- The closed sum `Patch` as used by `src/database/sync.rs`: the two
message wire forms are distinct variants; the internal `NewMessage` is
converted on serialization. -/
inductive Patch where
  | Contact (c : patch.Contact)
  | Conversation (c : patch.Conversation)
  | Member (m : patch.Member)
  | NewTextMessage (m : patch.NewTextMessage)
  | MessageStatus (s : patch.MessageStatus)
  | Attachment (a : patch.Attachment)
  | NewAttachmentMessage (m : patch.NewAttachmentMessage)
deriving DecidableEq, Repr

/-- `NewMessage::into_serializable` (`entity/src/patch/message.rs` lines
120-139) composed with the conversion into `Patch`: a message with an
attachment becomes a `NewAttachmentMessage` wire patch, otherwise a
`NewTextMessage` wire patch. -/
def patch.NewMessage.intoSerializable (m : patch.NewMessage) : Patch :=
  match m.attachment with
  | some attachment =>
    Patch.NewAttachmentMessage ⟨m.id, m.fromKey, m.conversation, m.text, attachment, m.crdt⟩
  | none => Patch.NewTextMessage ⟨m.id, m.fromKey, m.conversation, m.text, m.crdt⟩

/-! ## Replication engine (`src/database/sync.rs`) -/

/-- `SyncDataId` (`src/database/sync.rs` lines 64-68): a cursor position in
the global sync log or in the per-channel initial-sync queue. -/
inductive SyncDataId where
  | Global (id : Int)
  | InitialSync (id : Int)
deriving DecidableEq, Repr

/-- `SyncData` (`src/database/sync.rs` lines 25-29). -/
structure SyncData where
  id : SyncDataId
  payload : Patch
deriving DecidableEq, Repr

/-- `SyncData::conversation` (`src/database/sync.rs` lines 39-49): `none`
only for `Contact` patches. -/
def SyncData.conversation (d : SyncData) : Option Uuid :=
  match d.payload with
  | .Contact _ => none
  | .Conversation conversation => some conversation.id
  | .Member member => some member.conversation
  | .NewTextMessage message => some message.conversation
  | .MessageStatus status => some status.conversation
  | .Attachment attachment => some attachment.conversation
  | .NewAttachmentMessage attachment => some attachment.conversation

/-- `SyncData::author` (`src/database/sync.rs` lines 51-61): the author
recorded in the patch's stamp. -/
def SyncData.author (d : SyncData) : Author :=
  match d.payload with
  | .Contact contact => contact.crdt.author
  | .Conversation conversation => conversation.crdt.author
  | .Member member => member.crdt.author
  | .NewTextMessage message => message.crdt.writable.author
  | .MessageStatus message => message.crdt.author
  | .Attachment attachment => attachment.crdt.author
  | .NewAttachmentMessage attachment => attachment.crdt.writable.author

/-- `PatchSyncMessage` (`src/database/sync.rs` lines 176-180): the wire
messages of the replication protocol. -/
inductive PatchSyncMessage where
  | Data (data : SyncData)
  | Ack (id : SyncDataId)
deriving DecidableEq, Repr

/-- The trait `SyncDataSource` (`src/database/sync.rs` lines 8-23),
modelled as a record of state-passing functions over a store state `S`;
`DatabaseResult` failure is modelled by `Except ε`. The `ctx` argument is
folded into the functions (a concrete instantiation partially applies the
channel id). -/
structure SyncDataSource (S ε : Type) where
  next : S → Int × Int → Except ε (Option SyncData)
  ack : S → SyncDataId → Except ε S
  merge : S → SyncData → Except ε (Option SyncData × S)
  save : S → SyncData → Except ε S

/-- The per-channel replication state `PatchSync` (`src/database/sync.rs`
lines 88-94). The Rust field `tx` (the pending-message queue) is named
`txQueue` here because the outbound loop is also called `tx`; the queue
front is the list head. -/
structure PatchSync where
  author : Author
  conversation : Uuid
  txQueue : List PatchSyncMessage
  minimum : Int × Int
deriving DecidableEq, Repr

/-- `PatchSync::new` (`src/database/sync.rs` lines 96-104). -/
def PatchSync.new (author : Author) (conversation : Uuid) : PatchSync :=
  { author := author, conversation := conversation, txQueue := [], minimum := (0, 0) }

/-- The outbound loop `PatchSync::tx` (`src/database/sync.rs` lines
110-143). `fuel` bounds the number of loop iterations (each iteration
either returns or acks a skipped patch and continues); exhausted fuel is
reported as "no message". The first component of `minimum` is the
initial-sync cursor (Rust `.0`), the second the global cursor (Rust `.1`). -/
def PatchSync.tx {S ε : Type} (src : SyncDataSource S ε) :
    Nat → PatchSync → S → Except ε (Option PatchSyncMessage × PatchSync × S)
  | 0, ps, db => .ok (none, ps, db)
  | fuel + 1, ps, db =>
    match ps.txQueue with
    | next :: rest => .ok (some next, { ps with txQueue := rest }, db)
    | [] =>
      match src.next db ps.minimum with
      | .error e => .error e
      | .ok none => .ok (none, ps, db)
      | .ok (some next) =>
        let skipByConversation :=
          (next.conversation.map (fun conversation => conversation != ps.conversation)).getD false
        if next.author = ps.author ∨ skipByConversation then
          match src.ack db next.id with
          | .error e => .error e
          | .ok db => PatchSync.tx src fuel ps db
        else
          match next.id with
          | .Global id => .ok (some (.Data next), { ps with minimum := (ps.minimum.1, id) }, db)
          | .InitialSync id =>
            .ok (some (.Data next), { ps with minimum := (id, ps.minimum.2) }, db)

/-- The inbound handler `PatchSync::rx` (`src/database/sync.rs` lines
145-173): gate `Data` by conversation, merge and (when kept) save, always
enqueue an ack; forward `Ack` to the store. -/
def PatchSync.rx {S ε : Type} (src : SyncDataSource S ε) (ps : PatchSync) (db : S)
    (message : PatchSyncMessage) : Except ε (PatchSync × S) :=
  match message with
  | .Data data =>
    let id := data.id
    let validConversation :=
      (data.conversation.map (fun conversation => conversation == ps.conversation)).getD true
    if validConversation then
      match src.merge db data with
      | .error e => .error e
      | .ok (some data, db) =>
        match src.save db data with
        | .error e => .error e
        | .ok db => .ok ({ ps with txQueue := ps.txQueue ++ [.Ack id] }, db)
      | .ok (none, db) => .ok ({ ps with txQueue := ps.txQueue ++ [.Ack id] }, db)
    else
      .ok ({ ps with txQueue := ps.txQueue ++ [.Ack id] }, db)
  | .Ack id =>
    match src.ack db id with
    | .error e => .error e
    | .ok db => .ok (ps, db)

/-- A store operation, for observing which operations the engine invokes. -/
inductive StoreOp where
  | ack (id : SyncDataId)
  | merge (data : SyncData)
  | save (data : SyncData)
deriving DecidableEq, Repr

/-- Instrument a data source so the store state also records the sequence
of mutating store operations performed on it. -/
def SyncDataSource.traced {S ε : Type} (src : SyncDataSource S ε) :
    SyncDataSource (S × List StoreOp) ε where
  next := fun (db, _) minimum => src.next db minimum
  ack := fun (db, t) id => (src.ack db id).map (fun db => (db, t ++ [.ack id]))
  merge := fun (db, t) data =>
    (src.merge db data).map (fun (r, db) => (r, (db, t ++ [.merge data])))
  save := fun (db, t) data => (src.save db data).map (fun db => (db, t ++ [.save data]))

/-- C2: with a pending queue holding only acks, the outbound loop `tx`
never returns a `Data` message whose patch is authored by the peer or
scoped to a different conversation; such a patch is instead acked locally
on its own id and the scan continues with the acked store. -/
theorem tx_suppresses_echo_and_foreign_conversation {S ε : Type}
    (src : SyncDataSource S ε) :
    (∀ (fuel : Nat) (ps : PatchSync) (db : S) (sd : SyncData)
      (ps' : PatchSync) (db' : S),
      (∀ m ∈ ps.txQueue, ∃ id, m = PatchSyncMessage.Ack id) →
      PatchSync.tx src fuel ps db = .ok (some (PatchSyncMessage.Data sd), ps', db') →
      sd.author ≠ ps.author ∧ ∀ c, sd.conversation = some c → c = ps.conversation) ∧
    (∀ (fuel : Nat) (ps : PatchSync) (db : S) (sd : SyncData),
      ps.txQueue = [] →
      src.next db ps.minimum = .ok (some sd) →
      (sd.author = ps.author ∨ ∃ c, sd.conversation = some c ∧ c ≠ ps.conversation) →
      PatchSync.tx src (fuel + 1) ps db =
        (src.ack db sd.id).bind (fun db₂ => PatchSync.tx src fuel ps db₂)) := by
  constructor
  · intro fuel
    induction fuel with
    | zero =>
      intro ps db sd ps' db' hq h
      simp [PatchSync.tx] at h
    | succ fuel ih =>
      intro ps db sd ps' db' hq h
      cases hqe : ps.txQueue with
      | cons m rest =>
        simp [PatchSync.tx, hqe] at h
        obtain ⟨id, hm⟩ := hq m (by rw [hqe]; exact List.mem_cons_self m rest)
        rw [hm] at h
        simp at h
      | nil =>
        cases hnext : src.next db ps.minimum with
        | error e => simp [PatchSync.tx, hqe, hnext] at h
        | ok o =>
          cases o with
          | none => simp [PatchSync.tx, hqe, hnext] at h
          | some nxt =>
            by_cases hskip : nxt.author = ps.author ∨
              ((nxt.conversation.map
                (fun conversation => conversation != ps.conversation)).getD false = true)
            · simp only [PatchSync.tx, hqe, hnext, if_pos hskip] at h
              cases hack : src.ack db nxt.id with
              | error e => rw [hack] at h; simp at h
              | ok db₂ =>
                rw [hack] at h
                exact ih ps db₂ sd ps' db' (by rw [hqe]; intro m hm; simp at hm) h
            · simp only [PatchSync.tx, hqe, hnext, if_neg hskip] at h
              obtain ⟨hauthor, hconv⟩ := not_or.mp hskip
              have hsd : nxt = sd := by
                cases hid : nxt.id <;> rw [hid] at h <;> simp at h <;> exact h.1
              subst hsd
              refine ⟨hauthor, ?_⟩
              intro c hc
              rw [hc] at hconv
              simpa using hconv
  · intro fuel ps db sd hqe hnext hskip
    have hcond : sd.author = ps.author ∨
        ((sd.conversation.map
          (fun conversation => conversation != ps.conversation)).getD false = true) := by
      rcases hskip with h | ⟨c, hc, hne⟩
      · exact Or.inl h
      · exact Or.inr (by simp [hc, hne])
    cases hack : src.ack db sd.id with
    | error e => simp [PatchSync.tx, hqe, hnext, if_pos hcond, hack, Except.bind]
    | ok db₂ => simp [PatchSync.tx, hqe, hnext, if_pos hcond, hack, Except.bind]

/-- A contact patch stamped by author 5, global sync row 37. -/
def sampleData : SyncData := { id := .Global 37, payload := .Contact ⟨[], "", ⟨0, ⟨5⟩⟩⟩ }

/-- A contact patch stamped by author 3 (the peer of the sample channel). -/
def samplePeerData : SyncData := { id := .Global 37, payload := .Contact ⟨[], "", ⟨0, ⟨3⟩⟩⟩ }

/-- A conversation patch for the sample channel's conversation `⟨3⟩`. -/
def sampleConvData : SyncData :=
  { id := .Global 37, payload := .Conversation ⟨⟨3⟩, none, ⟨0, ⟨3⟩⟩⟩ }

/-- A conversation patch for a different conversation `⟨5⟩`. -/
def sampleOtherConvData : SyncData :=
  { id := .Global 37, payload := .Conversation ⟨⟨5⟩, none, ⟨0, ⟨3⟩⟩⟩ }

/-- A sample data source over an `Int` state whose scan yields
`sampleData`; `ack` increments the state. -/
def sampleSrc : SyncDataSource Int Unit where
  next := fun _ _ => .ok (some sampleData)
  ack := fun db _ => .ok (db + 1)
  merge := fun db d => .ok (some d, db)
  save := fun db _ => .ok db

/-- A sample data source whose scan yields the peer-authored patch. -/
def samplePeerSrc : SyncDataSource Int Unit where
  next := fun _ _ => .ok (some samplePeerData)
  ack := fun db _ => .ok (db + 1)
  merge := fun db d => .ok (some d, db)
  save := fun db _ => .ok db

/-- Witness for C2: on the sample channel (peer author 3, conversation 3)
the emitted patch is not peer-authored and not foreign, and a
peer-authored patch at the head of the scan is acked locally. -/
theorem tx_suppresses_echo_and_foreign_conversation_witness :
    (sampleData.author ≠ (PatchSync.new ⟨3⟩ ⟨3⟩).author ∧
      ∀ c, sampleData.conversation = some c → c = (PatchSync.new ⟨3⟩ ⟨3⟩).conversation) ∧
    PatchSync.tx samplePeerSrc 1 (PatchSync.new ⟨3⟩ ⟨3⟩) (0 : Int) =
      (samplePeerSrc.ack 0 samplePeerData.id).bind
        (fun db₂ => PatchSync.tx samplePeerSrc 0 (PatchSync.new ⟨3⟩ ⟨3⟩) db₂) := by
  constructor
  · exact (tx_suppresses_echo_and_foreign_conversation sampleSrc).1 1
      (PatchSync.new ⟨3⟩ ⟨3⟩) 0 sampleData ⟨⟨3⟩, ⟨3⟩, [], (0, 37)⟩ 0
      (by intro m hm; simp [PatchSync.new] at hm) rfl
  · exact (tx_suppresses_echo_and_foreign_conversation samplePeerSrc).2 0
      (PatchSync.new ⟨3⟩ ⟨3⟩) 0 samplePeerData rfl rfl (Or.inl rfl)

/-- C3: the inbound handler `rx` invokes the store merge exactly when the
patch's conversation is null or equal to the channel's conversation, saves
the kept patch to the sync log whenever the merge keeps one, enqueues
exactly one `Ack(sd.id)` in every case, and forwards a received `Ack` to
the store's ack operation. The trace component records exactly which store
operations were invoked. -/
theorem rx_gates_merge_and_always_acks {S ε : Type} (src : SyncDataSource S ε) :
    (∀ (ps : PatchSync) (db : S) (t : List StoreOp) (sd : SyncData) (c : Uuid),
      sd.conversation = some c → c ≠ ps.conversation →
      PatchSync.rx src.traced ps (db, t) (.Data sd) =
        .ok ({ ps with txQueue := ps.txQueue ++ [.Ack sd.id] }, (db, t))) ∧
    (∀ (ps : PatchSync) (db : S) (t : List StoreOp) (sd : SyncData),
      (sd.conversation = none ∨ sd.conversation = some ps.conversation) →
      ∀ kept db₂ db₃, src.merge db sd = .ok (some kept, db₂) →
        src.save db₂ kept = .ok db₃ →
      PatchSync.rx src.traced ps (db, t) (.Data sd) =
        .ok ({ ps with txQueue := ps.txQueue ++ [.Ack sd.id] },
          (db₃, t ++ [.merge sd, .save kept]))) ∧
    (∀ (ps : PatchSync) (db : S) (t : List StoreOp) (sd : SyncData),
      (sd.conversation = none ∨ sd.conversation = some ps.conversation) →
      ∀ db₂, src.merge db sd = .ok (none, db₂) →
      PatchSync.rx src.traced ps (db, t) (.Data sd) =
        .ok ({ ps with txQueue := ps.txQueue ++ [.Ack sd.id] },
          (db₂, t ++ [.merge sd]))) ∧
    (∀ (ps : PatchSync) (db : S) (t : List StoreOp) (id : SyncDataId) (db₂ : S),
      src.ack db id = .ok db₂ →
      PatchSync.rx src.traced ps (db, t) (.Ack id) = .ok (ps, (db₂, t ++ [.ack id]))) := by
  refine ⟨?_, ?_, ?_, ?_⟩
  · intro ps db t sd c hc hne
    simp [PatchSync.rx, SyncDataSource.traced, hc, hne]
  · intro ps db t sd hconv kept db₂ db₃ hm hs
    rcases hconv with hconv | hconv <;>
      simp [PatchSync.rx, SyncDataSource.traced, hconv, hm, hs, Except.map]
  · intro ps db t sd hconv db₂ hm
    rcases hconv with hconv | hconv <;>
      simp [PatchSync.rx, SyncDataSource.traced, hconv, hm, Except.map]
  · intro ps db t id db₂ hack
    simp [PatchSync.rx, SyncDataSource.traced, hack, Except.map]

/-- Witness for C3 on the sample channel: a foreign-conversation patch is
acked without merging; a matching-conversation patch is merged and saved
before the ack; a received ack reaches the store. -/
theorem rx_gates_merge_and_always_acks_witness :
    (PatchSync.rx sampleSrc.traced (PatchSync.new ⟨3⟩ ⟨3⟩) ((0 : Int), [])
        (.Data sampleOtherConvData) =
      .ok ({ PatchSync.new ⟨3⟩ ⟨3⟩ with txQueue := [.Ack sampleOtherConvData.id] },
        (0, []))) ∧
    (PatchSync.rx sampleSrc.traced (PatchSync.new ⟨3⟩ ⟨3⟩) ((0 : Int), [])
        (.Data sampleConvData) =
      .ok ({ PatchSync.new ⟨3⟩ ⟨3⟩ with txQueue := [.Ack sampleConvData.id] },
        (0, [.merge sampleConvData, .save sampleConvData]))) ∧
    (PatchSync.rx sampleSrc.traced (PatchSync.new ⟨3⟩ ⟨3⟩) ((0 : Int), [])
        (.Ack (.Global 9)) =
      .ok (PatchSync.new ⟨3⟩ ⟨3⟩, (1, [.ack (.Global 9)]))) := by
  refine ⟨?_, ?_, ?_⟩
  · have h := (rx_gates_merge_and_always_acks sampleSrc).1 (PatchSync.new ⟨3⟩ ⟨3⟩) 0 []
      sampleOtherConvData ⟨5⟩ rfl (by decide)
    simpa [PatchSync.new] using h
  · have h := (rx_gates_merge_and_always_acks sampleSrc).2.1 (PatchSync.new ⟨3⟩ ⟨3⟩) 0 []
      sampleConvData (Or.inr rfl) sampleConvData 0 0 rfl rfl
    simpa [PatchSync.new] using h
  · have h := (rx_gates_merge_and_always_acks sampleSrc).2.2.2 (PatchSync.new ⟨3⟩ ⟨3⟩) 0 []
      (.Global 9) 1 rfl
    simpa [PatchSync.new] using h

/-! ## Framing (`src/fragmentable.rs`) -/

/-- `MAX_LEN` (`src/fragmentable.rs` line 5): the fragment size bound. -/
def MAX_LEN : Nat := 4096

/-- `BigEndian::write_u32`: the 4-byte big-endian encoding of a length
(truncated to 32 bits, as by `data.len() as u32`). -/
def u32be (n : Nat) : List Nat :=
  [n / 2 ^ 24 % 256, n / 2 ^ 16 % 256, n / 2 ^ 8 % 256, n % 256]

/-- `Fragmentable::send_packet` (`src/fragmentable.rs` lines 27-36): emit
the packet as consecutive underlying-transport writes of at most `MAX_LEN`
bytes; the returned list holds the writes in order. -/
def sendPacket : List Nat → List (List Nat)
  | [] => []
  | x :: rest => ((x :: rest).take MAX_LEN) :: sendPacket ((x :: rest).drop MAX_LEN)
termination_by p => p.length
decreasing_by simp [MAX_LEN]; omega

/-- `Fragmentable::send` (`src/fragmentable.rs` lines 62-73): prepend the
4-byte big-endian payload length and fragment the resulting packet. -/
def fragmentableSend (data : List Nat) : List (List Nat) :=
  sendPacket (u32be data.length ++ data)

theorem sendPacket_join (p : List Nat) : (sendPacket p).flatten = p := by
  induction p using sendPacket.induct with
  | case1 => simp [sendPacket]
  | case2 x rest ih =>
    rw [sendPacket]
    simp only [List.flatten_cons, ih]
    exact List.take_append_drop MAX_LEN (x :: rest)

theorem sendPacket_chunk_le (p : List Nat) : ∀ c ∈ sendPacket p, c.length ≤ MAX_LEN := by
  induction p using sendPacket.induct with
  | case1 => simp [sendPacket]
  | case2 x rest ih =>
    rw [sendPacket]
    intro c hc
    rcases List.mem_cons.mp hc with hc | hc
    · subst hc
      simp
    · exact ih c hc

theorem sendPacket_small (p : List Nat) (h0 : 0 < p.length) (h1 : p.length ≤ MAX_LEN) :
    sendPacket p = [p] := by
  cases p with
  | nil => simp at h0
  | cons x rest =>
    rw [sendPacket]
    rw [List.take_of_length_le h1, List.drop_eq_nil_of_le h1]
    simp [sendPacket]

theorem sendPacket_two (p : List Nat) (h0 : MAX_LEN < p.length)
    (h1 : p.length ≤ 2 * MAX_LEN) :
    (sendPacket p).map List.length = [MAX_LEN, p.length - MAX_LEN] := by
  cases p with
  | nil => simp [MAX_LEN] at h0
  | cons x rest =>
    rw [sendPacket]
    have hdrop : ((x :: rest).drop MAX_LEN).length = (x :: rest).length - MAX_LEN := by
      simp
    rw [sendPacket_small _ (by omega) (by omega)]
    simp only [List.map_cons, List.map_nil]
    rw [List.length_take, hdrop]
    congr 1
    omega

/-- C9: `Fragmentable::send` writes one packet made of the 4-byte
big-endian length prefix followed by the payload, as consecutive writes of
at most 4096 bytes; a 6000-byte payload is sent as exactly two fragments
of 4096 and (6000-4096)+4 bytes. -/
theorem fragmentable_send_frames_and_fragments :
    (∀ data : List Nat, (fragmentableSend data).flatten = u32be data.length ++ data) ∧
    (∀ data : List Nat, ∀ c ∈ fragmentableSend data, c.length ≤ 4096) ∧
    (∀ data : List Nat, data.length = 6000 →
      (fragmentableSend data).map List.length = [4096, 6000 - 4096 + 4]) := by
  refine ⟨?_, ?_, ?_⟩
  · intro data
    exact sendPacket_join _
  · intro data c hc
    exact sendPacket_chunk_le _ c hc
  · intro data hdata
    have hlen : (u32be data.length ++ data).length = 6004 := by
      rw [List.length_append, hdata]
      rfl
    unfold fragmentableSend
    rw [sendPacket_two _ (by rw [hlen]; decide) (by rw [hlen]; decide), hlen]
    rfl

/-- Witness for C9: a concrete 6000-byte payload is fragmented as
`[4096, 1908]`. -/
theorem fragmentable_send_frames_and_fragments_witness :
    (fragmentableSend (List.replicate 6000 0)).map List.length = [4096, 1908] := by
  have h := fragmentable_send_frames_and_fragments.2.2 (List.replicate 6000 0)
    (by rw [List.length_replicate])
  have h₂ : (6000 : Nat) - 4096 + 4 = 1908 := by norm_num
  rw [h₂] at h
  exact h

/-! ## The relational store

Row structures mirror the sqlite tables (`migration/src/
m20230326_000001_create_table.rs`, entity models under `entity/src/entity/`).
Tables are lists of rows in insertion order; an auto-increment id is
`max existing id + 1` (sqlite's rowid rule). Split-UUID columns are a
single `Uuid` field; lookups that filter on all four split columns are
equality on that field. -/

/-- `key(id, public)`. -/
structure KeyRow where
  id : Int
  public : Key
deriving DecidableEq, Repr

/-- `contact(key, name, crdt_generation, crdt_author)`; `key` is the
primary key and references `key.id`. -/
structure ContactRow where
  key : Int
  name : String
  crdtGeneration : Int
  crdtAuthor : Int
deriving DecidableEq, Repr

/-- `conversation(id, uuid0..3, title, crdt_generation, crdt_author)`. -/
structure ConversationRow where
  id : Int
  uuid : Uuid
  title : Option String
  crdtGeneration : Int
  crdtAuthor : Int
deriving DecidableEq, Repr

/-- `member(contact, conversation, crdt_author)`. -/
structure MemberRow where
  contact : Int
  conversation : Int
  crdtAuthor : Int
deriving DecidableEq, Repr

/-- `message(...)`; the `from` column is named `fromKey`. -/
structure MessageRow where
  id : Int
  uuid : Uuid
  status : Int
  fromKey : Int
  conversation : Int
  text : String
  attachment : Option Int
  crdtGeneration : Int
  crdtAuthor : Int
  statusCrdtGeneration : Int
  statusCrdtAuthor : Int
  crdtSequence : Int
deriving DecidableEq, Repr

/-- `attachment(id, uuid0..3, conversation, payload, crdt_author)`. -/
structure AttachmentRow where
  id : Int
  uuid : Uuid
  conversation : Int
  payload : Option (List Nat)
  crdtAuthor : Int
deriving DecidableEq, Repr

/-- `channel(id, conversation, peer, sync_index)`. -/
structure ChannelRow where
  id : Int
  conversation : Int
  peer : Int
  syncIndex : Int
deriving DecidableEq, Repr

/-- `sync(id, payload)`; the bincode payload is modelled as the patch. -/
structure SyncRow where
  id : Int
  payload : Patch
deriving DecidableEq, Repr

/-- `initial_sync(id, channel, payload)`. -/
structure InitialSyncRow where
  id : Int
  channel : Int
  payload : Patch
deriving DecidableEq, Repr

/-- The whole sqlite database state. -/
structure Db where
  keys : List KeyRow
  contacts : List ContactRow
  conversations : List ConversationRow
  members : List MemberRow
  messages : List MessageRow
  attachments : List AttachmentRow
  channels : List ChannelRow
  syncRows : List SyncRow
  initialSyncRows : List InitialSyncRow
deriving DecidableEq, Repr

/-- The sqlite auto-increment rule: one more than the largest existing id
(`1` on an empty table). -/
def nextId (ids : List Int) : Int := ids.foldr max 0 + 1

/-- `Key::get_or_create` (`entity/src/patch/mod.rs` lines 123-141): find
the key row by its public bytes or insert a fresh one. -/
def keyGetOrCreate (db : Db) (key : Key) : Db × KeyRow :=
  match db.keys.find? (fun k => k.public == key) with
  | some existent => (db, existent)
  | none =>
    let k : KeyRow := { id := nextId (db.keys.map (·.id)), public := key }
    ({ db with keys := db.keys ++ [k] }, k)

/-- `Contact::get_or_create` (`entity/src/patch/contact.rs` lines 28-53):
get-or-create the key, then find the contact by the key's id or insert a
zero-stamped placeholder. -/
def contactGetOrCreate (db : Db) (key : Key) : Db × KeyRow × ContactRow :=
  let (db, k) := keyGetOrCreate db key
  match db.contacts.find? (fun c => c.key == k.id) with
  | some existent => (db, k, existent)
  | none =>
    let c : ContactRow := { key := k.id, name := "", crdtGeneration := 0, crdtAuthor := 0 }
    ({ db with contacts := db.contacts ++ [c] }, k, c)

/-- `Conversation::get_or_create` (`entity/src/patch/conversation.rs`
lines 31-61): find the conversation by uuid or insert a zero-stamped
placeholder row. -/
def conversationGetOrCreate (db : Db) (uuid : Uuid) : Db × ConversationRow :=
  match db.conversations.find? (fun c => c.uuid == uuid) with
  | some existent => (db, existent)
  | none =>
    let c : ConversationRow :=
      { id := nextId (db.conversations.map (·.id)), uuid := uuid,
        title := none, crdtGeneration := 0, crdtAuthor := 0 }
    ({ db with conversations := db.conversations ++ [c] }, c)

/-- `patch::Contact::from((key::Model, contact::Model))`
(`entity/src/patch/contact.rs` lines 15-26). -/
def contactPatchOfRow (key : KeyRow) (contact : ContactRow) : patch.Contact :=
  { key := key.public, name := contact.name,
    crdt := { generation := contact.crdtGeneration, author := ⟨contact.crdtAuthor⟩ } }

/-- `patch::Member::from((key::Model, member::Model, Uuid))`
(`entity/src/patch/member.rs` lines 16-24). -/
def memberPatchOfRow (key : KeyRow) (member : MemberRow) (conversation : Uuid) :
    patch.Member :=
  { key := key.public, conversation := conversation, crdt := ⟨⟨member.crdtAuthor⟩⟩ }

/-- `patch::NewMessage` built from a message row, its sender key and the
owning conversation's uuid (`entity/src/patch/message.rs` lines 63-98).
Modelled from the spec: the three-argument `From` impl used by
`Database::initial_sync` is not under `src/`; per the spec the attachment
field carries the uuid of the referenced attachment row, resolved through
the attachment table. -/
def newMessagePatchOfRow (db : Db) (message : MessageRow) (key : KeyRow)
    (conversation : Uuid) : patch.NewMessage :=
  { id := message.uuid, fromKey := key.public, conversation := conversation,
    text := message.text,
    attachment := message.attachment.bind
      (fun aid => (db.attachments.find? (fun a => a.id == aid)).map (·.uuid)),
    crdt :=
      { writable := { generation := message.crdtGeneration, author := ⟨message.crdtAuthor⟩ },
        sequence := message.crdtSequence } }

/-- `patch::MessageStatus::from((message::Model, Uuid))`
(`entity/src/patch/message.rs` lines 163-177). -/
def messageStatusPatchOfRow (message : MessageRow) (conversation : Uuid) :
    patch.MessageStatus :=
  { id := message.uuid, conversation := conversation, status := message.status,
    crdt :=
      { generation := message.statusCrdtGeneration,
        author := ⟨message.statusCrdtAuthor⟩ } }

/-! ## Sqlite sync data source (`src/database/sqlite_sync.rs`) -/

/-- `channel::Entity::find_by_id`. -/
def findChannel (db : Db) (channelId : Int) : Option ChannelRow :=
  db.channels.find? (fun c => c.id == channelId)

/-- `remove_old_patches` (`src/database/sqlite_sync.rs` lines 133-150):
take the smallest `sync_index` across all channels (order by `sync_index`
ascending, one row) and delete every sync row whose id is ≤ it. -/
def removeOldPatches (db : Db) : Db :=
  match (db.channels.map (·.syncIndex)).min? with
  | none => db
  | some doneSyncIndex =>
    { db with syncRows := db.syncRows.filter (fun r => decide (doneSyncIndex < r.id)) }

/-- `SyncDataSource::ack` for the sqlite transaction
(`src/database/sqlite_sync.rs` lines 62-97). -/
def dbAck (db : Db) (channelId : Int) (id : SyncDataId) : Db :=
  match id with
  | .Global id =>
    match findChannel db channelId with
    | none => db
    | some channel =>
      if id ≤ channel.syncIndex then db
      else
        let db := { db with channels := db.channels.map (fun c =>
          if c.id == channelId then { c with syncIndex := id } else c) }
        removeOldPatches db
  | .InitialSync id =>
    match db.initialSyncRows.find? (fun r => r.id == id) with
    | none => db
    | some row =>
      if row.channel ≠ channelId then db
      else { db with initialSyncRows := db.initialSyncRows.filter (fun r => decide (r.id ≠ id)) }

/-- The initial-sync rows eligible for `next` on a channel: rows of this
channel with id above the cursor. -/
def eligibleInitial (db : Db) (channelId : Int) (minInitial : Int) : List InitialSyncRow :=
  db.initialSyncRows.filter (fun r => r.channel == channelId && decide (minInitial < r.id))

/-- `SyncDataSource::next` for the sqlite transaction
(`src/database/sqlite_sync.rs` lines 18-60): the smallest eligible
initial-sync row of the channel, else the first global sync row above both
the channel's `sync_index` and the global cursor (the global query has no
order clause; the table is in ascending-id insertion order). -/
def dbNext (db : Db) (channelId : Int) (minimum : Int × Int) : Option SyncData :=
  match (eligibleInitial db channelId minimum.1).argmin (·.id) with
  | some row => some { id := .InitialSync row.id, payload := row.payload }
  | none =>
    match findChannel db channelId with
    | none => none
    | some channel =>
      match (db.syncRows.filter (fun r =>
          decide (channel.syncIndex < r.id) && decide (minimum.2 < r.id))).head? with
      | some row => some { id := .Global row.id, payload := row.payload }
      | none => none

/-- `Database::save_patch_for_sync` (`src/database/mod.rs` lines 548-562):
append the patch to the global sync log with a fresh id. -/
def savePatchForSync (db : Db) (p : Patch) : Db :=
  { db with syncRows := db.syncRows ++ [{ id := nextId (db.syncRows.map (·.id)), payload := p }] }

/-- `Database::save_initial_patch` (`src/database/mod.rs` lines 564-580):
append the patch to the channel's initial-sync queue with a fresh id. -/
def saveInitialPatch (db : Db) (channelId : Int) (p : Patch) : Db :=
  { db with initialSyncRows := db.initialSyncRows ++
      [{ id := nextId (db.initialSyncRows.map (·.id)), channel := channelId, payload := p }] }

/-- `Database::current_sync_index` (`src/database/mod.rs` lines 582-589):
the largest sync row id, or 0 on an empty log. -/
def currentSyncIndex (db : Db) : Int :=
  ((db.syncRows.map (·.id)).max?).getD 0

/-! ## Member merge (`entity/src/crdt/member.rs`) -/

/-- `CrdtTransaction::<Member>::existent` (`entity/src/crdt/member.rs`
lines 57-77): get-or-create the contact and the conversation, then look up
the member row by the pair of row ids. -/
def memberExistent (db : Db) (key : Key) (conversation : Uuid) : Db × Option MemberRow :=
  let (db, k, _) := contactGetOrCreate db key
  let (db, convRow) := conversationGetOrCreate db conversation
  (db, db.members.find? (fun m => m.contact == k.id && m.conversation == convRow.id))

/-- `CrdtTransaction::<Member>::save` in the absent case
(`entity/src/crdt/member.rs` lines 32-55): insert the member row; when a
row exists the save writes nothing. -/
def memberSaveNew (db : Db) (value : patch.Member) : Db :=
  let (db, k, _) := contactGetOrCreate db value.key
  let (db, convRow) := conversationGetOrCreate db value.conversation
  { db with members := db.members ++
      [{ contact := k.id, conversation := convRow.id, crdtAuthor := value.crdt.author.val }] }

/-- The transaction-level merge for a `Member` patch: the generic merge
kernel with the add-only stamp. Modelled from the spec: the `CrdtOrd`
instance of the author-carrying `CrdtAddOnly` is not under `src/`; the
spec's stamp table gives `AddOnly` the singleton order, so an inbound
stamp is never strictly greater than a stored one and a merge onto an
existing row returns `None` leaving the row untouched (accept-if-absent). -/
def memberMerge (db : Db) (value : patch.Member) : Option patch.Member × Db :=
  let (db, existent) := memberExistent db value.key value.conversation
  match existent with
  | none => (some value, memberSaveNew db value)
  | some _ => (none, db)

/-- `Database::merge_new_patch` for a `Member` patch (`src/database/mod.rs`
lines 533-546): merge, and append the kept patch to the sync log. -/
def mergeNewMemberPatch (db : Db) (p : patch.Member) : Db :=
  match memberMerge db p with
  | (none, db) => db
  | (some kept, db) => savePatchForSync db (Patch.Member kept)

/-! ## Channels and the initial snapshot (`src/database/mod.rs`) -/

/-- The public `database::Conversation` view (`src/database/mod.rs` lines
643-650) as consumed by `create_channel`; the members list is omitted as
it is not read by the modelled operations. -/
structure ConversationView where
  id : Int
  uuid : Uuid
  title : Option String
  crdt : CrdtWritable
deriving DecidableEq, Repr

/-- The `contact` table joined with its keys
(`contact::Entity::find().find_also_related(key::Entity)`); a row whose
key is missing would make the source panic on `unwrap` and is skipped. -/
def contactsWithKeys (db : Db) : List (ContactRow × KeyRow) :=
  db.contacts.filterMap
    (fun c => (db.keys.find? (fun k => k.id == c.key)).map (fun k => (c, k)))

/-- The members of a conversation joined with their keys. -/
def membersOfConversation (db : Db) (conversationId : Int) :
    List (MemberRow × KeyRow) :=
  (db.members.filter (fun m => m.conversation == conversationId)).filterMap
    (fun m => (db.keys.find? (fun k => k.id == m.contact)).map (fun k => (m, k)))

/-- The messages of a conversation joined with their sender keys. -/
def messagesOfConversation (db : Db) (conversationId : Int) :
    List (MessageRow × KeyRow) :=
  (db.messages.filter (fun m => m.conversation == conversationId)).filterMap
    (fun m => (db.keys.find? (fun k => k.id == m.fromKey)).map (fun k => (m, k)))

/-- The patches enqueued by `Database::initial_sync`
(`src/database/mod.rs` lines 434-501), in order: the conversation patch,
every contact patch, every member patch of the conversation, then for each
message of the conversation its `NewMessage` patch followed by its
`MessageStatus` patch. -/
def initialPatchList (db : Db) (conversation : ConversationView) : List Patch :=
  Patch.Conversation
      { id := conversation.uuid, title := conversation.title, crdt := conversation.crdt } ::
    ((contactsWithKeys db).map (fun p => Patch.Contact (contactPatchOfRow p.2 p.1)) ++
     (membersOfConversation db conversation.id).map
       (fun p => Patch.Member (memberPatchOfRow p.2 p.1 conversation.uuid)) ++
     (messagesOfConversation db conversation.id).flatMap
       (fun p => [(newMessagePatchOfRow db p.1 p.2 conversation.uuid).intoSerializable,
         Patch.MessageStatus (messageStatusPatchOfRow p.1 conversation.uuid)]))

/-- `Database::initial_sync`: enqueue the snapshot patches one by one. The
source's queries read tables that the enqueue never modifies, so folding
over the pre-computed patch list is faithful. -/
def initialSync (db : Db) (channelId : Int) (conversation : ConversationView) : Db :=
  (initialPatchList db conversation).foldl (fun db p => saveInitialPatch db channelId p) db

/-- The committing path of `Database::create_channel` (`src/database/mod.rs`
lines 357-401) up to the `initial_sync` call: merge the peer's `Member`
patch, then insert the channel row with `sync_index` set to the current
top of the sync log; returns the store and the new channel's id. -/
def createChannelSetup (db₀ : Db) (author : Author) (conversation : ConversationView)
    (peer : Key) : Db × Int :=
  let (db, peerKey, _) := contactGetOrCreate db₀ peer
  let db := mergeNewMemberPatch db
    { key := peer, conversation := conversation.uuid, crdt := ⟨author⟩ }
  let channelId := nextId (db.channels.map (·.id))
  let db := { db with channels := db.channels ++
    [{ id := channelId, conversation := conversation.id, peer := peerKey.id,
       syncIndex := currentSyncIndex db }] }
  (db, channelId)

/-- `Database::create_channel` (`src/database/mod.rs` lines 357-401):
get-or-create the peer contact; when a channel row for the
`(conversation, peer)` pair already exists, return early — the transaction
is dropped uncommitted, so the store rolls back to its original state.
Otherwise merge the member patch, insert the channel row and enqueue the
initial snapshot. -/
def createChannel (db₀ : Db) (author : Author) (conversation : ConversationView)
    (peer : Key) : Db :=
  let (db, peerKey, _) := contactGetOrCreate db₀ peer
  if 0 < db.channels.countP
      (fun c => c.conversation == conversation.id && c.peer == peerKey.id) then
    db₀
  else
    let (db, channelId) := createChannelSetup db₀ author conversation peer
    initialSync db channelId conversation

/-! ## Message transactions (`entity/src/crdt/message.rs`) -/

/-- `CrdtTransaction::<NewMessage>::existent` (`entity/src/crdt/message.rs`
lines 90-137): find the message row by uuid and rebuild the `NewMessage`
patch through its conversation, sender key and attachment rows (the source
unwraps those lookups; a row violating the foreign keys is treated as
absent here). -/
def messageExistent (db : Db) (id : Uuid) : Option (Int × patch.NewMessage) :=
  match db.messages.find? (fun m => m.uuid == id) with
  | none => none
  | some m =>
    match db.conversations.find? (fun c => c.id == m.conversation),
        db.keys.find? (fun k => k.id == m.fromKey) with
    | some convRow, some keyRow =>
      some (m.id, newMessagePatchOfRow db m keyRow convRow.uuid)
    | _, _ => none

/-- `CrdtTransaction::<NewMessage>::save` (`entity/src/crdt/message.rs`
lines 40-88): update the content columns of the existing row, or insert a
fresh row with status zero and a zero status stamp. -/
def messageSave (db : Db) (message : patch.NewMessage)
    (existent : Option (Int × patch.NewMessage)) : Db :=
  let (db, fromKey, _) := contactGetOrCreate db message.fromKey
  let (db, convRow) := conversationGetOrCreate db message.conversation
  match existent with
  | some (rowId, _) =>
    { db with messages := db.messages.map (fun m =>
      if m.id == rowId then
        { m with
          fromKey := fromKey.id, conversation := convRow.id, text := message.text,
          attachment := none,
          crdtGeneration := message.crdt.writable.generation,
          crdtAuthor := message.crdt.writable.author.val,
          crdtSequence := message.crdt.sequence }
      else m) }
  | none =>
    { db with messages := db.messages ++ [{
        id := nextId (db.messages.map (·.id)),
        uuid := message.id, status := 0, fromKey := fromKey.id,
        conversation := convRow.id, text := message.text, attachment := none,
        crdtGeneration := message.crdt.writable.generation,
        crdtAuthor := message.crdt.writable.author.val,
        statusCrdtGeneration := 0, statusCrdtAuthor := 0,
        crdtSequence := message.crdt.sequence }] }

/-- `CrdtWritableSequenceTransaction::<NewMessage>::last`
(`entity/src/crdt/message.rs` lines 139-163): the stamp of the message
with the largest `crdt_sequence` in the group's conversation (order by
`crdt_sequence` descending, one row). -/
def messageLast (db : Db) (group : patch.NewMessage) :
    Db × Option CrdtWritableSequence :=
  let (db, convRow) := conversationGetOrCreate db group.conversation
  match (db.messages.filter (fun m => m.conversation == convRow.id)).argmax
      (·.crdtSequence) with
  | none => (db, none)
  | some m =>
    (db, some
      { writable := { generation := m.crdtGeneration, author := ⟨m.crdtAuthor⟩ },
        sequence := m.crdtSequence })

/-- `CrdtWritableSequenceTransaction::push` (`entity/src/crdt/sequence.rs`
lines 22-36, with `last` applied to the pushed value's group as in
`entity/src/crdt/message.rs`): advance the existing (or default) stamp and
set the sequence to one past the group's last sequence. -/
def messagePush (db : Db) (author : Author) (value : patch.NewMessage) :
    Db × patch.NewMessage :=
  let existent := messageExistent db value.id
  let crdt₀ := ((existent.map (fun e => e.2.crdt)).getD
    CrdtWritableSequence.default).next author
  let (db, lastStamp) := messageLast db value
  let crdt := { crdt₀ with
    sequence := (lastStamp.getD CrdtWritableSequence.default).sequence + 1 }
  let value := { value with crdt := crdt }
  (messageSave db value existent, value)

/-- `CrdtTransaction::<MessageStatus>::existent`
(`entity/src/crdt/message.rs` lines 233-256). -/
def messageStatusExistent (db : Db) (id : Uuid) : Option (Int × patch.MessageStatus) :=
  match db.messages.find? (fun m => m.uuid == id) with
  | none => none
  | some m =>
    (db.conversations.find? (fun c => c.id == m.conversation)).map (fun convRow =>
      (m.id, messageStatusPatchOfRow m convRow.uuid))

/-- `CrdtTransaction::<MessageStatus>::save` (`entity/src/crdt/message.rs`
lines 182-231): on an existing row, set the status, the conversation and
the status stamp columns (all other columns are `NotSet`); otherwise
insert a placeholder row with a zero content stamp, empty text and the
default sender contact. -/
def messageStatusSave (db : Db) (status : patch.MessageStatus)
    (existent : Option (Int × patch.MessageStatus)) : Db :=
  let (db, convRow) := conversationGetOrCreate db status.conversation
  match existent with
  | some (rowId, _) =>
    { db with messages := db.messages.map (fun m =>
      if m.id == rowId then
        { m with
          status := status.status, conversation := convRow.id,
          statusCrdtGeneration := status.crdt.generation,
          statusCrdtAuthor := status.crdt.author.val }
      else m) }
  | none =>
    let (db, fromKey, _) := contactGetOrCreate db (List.replicate 32 0)
    { db with messages := db.messages ++ [{
        id := nextId (db.messages.map (·.id)),
        uuid := status.id, status := status.status, fromKey := fromKey.id,
        conversation := convRow.id, text := "", attachment := none,
        crdtGeneration := 0, crdtAuthor := 0,
        statusCrdtGeneration := status.crdt.generation,
        statusCrdtAuthor := status.crdt.author.val,
        crdtSequence := 0 }] }

/-! ## C4: ack semantics, monotone cursors, GC -/

theorem find?_eq_of_mem_of_nodup {α : Type} (f : α → Int) (l : List α) (v : Int)
    (a b : α) (hfind : l.find? (fun x => f x == v) = some b) (hmem : a ∈ l)
    (ha : f a = v) (hnodup : (l.map f).Nodup) : a = b := by
  induction l with
  | nil => simp at hmem
  | cons x xs ih =>
    rw [List.map_cons, List.nodup_cons] at hnodup
    rw [List.find?_cons] at hfind
    split at hfind <;> rename_i hx
    · cases hfind
      rcases List.mem_cons.mp hmem with h | h
      · exact h
      · exact absurd (by rw [beq_iff_eq.mp hx, ← ha]; exact List.mem_map_of_mem f h)
          hnodup.1
    · rcases List.mem_cons.mp hmem with h | h
      · subst h
        rw [beq_eq_false_iff_ne] at hx
        exact absurd ha hx
      · exact ih hfind h hnodup.2

theorem le_foldr_max (a : Int) (l : List Int) (ha : a ∈ l) : a ≤ l.foldr max 0 := by
  induction l with
  | nil => simp at ha
  | cons x xs ih =>
    rcases List.mem_cons.mp ha with h | h
    · subst h
      exact le_max_left _ _
    · exact (ih h).trans (le_max_right _ _)

theorem removeOldPatches_channels (db : Db) :
    (removeOldPatches db).channels = db.channels := by
  unfold removeOldPatches
  cases (db.channels.map (·.syncIndex)).min? <;> rfl

theorem removeOldPatches_gc (db : Db) :
    ∀ r ∈ (removeOldPatches db).syncRows,
      ∀ m, ((removeOldPatches db).channels.map (·.syncIndex)).min? = some m →
        m < r.id := by
  intro r hr m hm
  rw [removeOldPatches_channels] at hm
  unfold removeOldPatches at hr
  rw [hm] at hr
  simp only [List.mem_filter] at hr
  exact of_decide_eq_true hr.2

theorem dbAck_global_update (db : Db) (cid id : Int) (ch : ChannelRow)
    (hfound : findChannel db cid = some ch) (hlt : ch.syncIndex < id) :
    dbAck db cid (.Global id) = removeOldPatches
      { db with channels := db.channels.map (fun c =>
          if c.id == cid then { c with syncIndex := id } else c) } := by
  simp only [dbAck, hfound]
  rw [if_neg (not_le.mpr hlt)]

theorem dbAck_initialSync_channels (db : Db) (cid i : Int) :
    (dbAck db cid (.InitialSync i)).channels = db.channels := by
  simp only [dbAck]
  cases db.initialSyncRows.find? (fun r => r.id == i) with
  | none => rfl
  | some row =>
    dsimp only
    split <;> rfl

/-- C4: `ack(Global(id))` leaves the channel's `sync_index` unchanged when
`id` is not above it and sets it to `id` otherwise; every channel's
`sync_index` is non-decreasing under any single ack (hence under any
sequence of acks), assuming the primary-key uniqueness of channel ids;
and after an update every surviving global sync row's id is strictly above
the minimum `sync_index` across all channels. -/
theorem ack_monotone_and_gc :
    (∀ (db : Db) (cid id : Int) (ch : ChannelRow),
      findChannel db cid = some ch → id ≤ ch.syncIndex →
      dbAck db cid (.Global id) = db) ∧
    (∀ (db : Db) (cid id : Int) (ch : ChannelRow),
      findChannel db cid = some ch → ch.syncIndex < id →
      findChannel (dbAck db cid (.Global id)) cid = some { ch with syncIndex := id }) ∧
    (∀ (db : Db) (cid : Int) (sid : SyncDataId),
      (db.channels.map (·.id)).Nodup →
      ∀ c' ∈ (dbAck db cid sid).channels, ∃ c ∈ db.channels,
        c'.id = c.id ∧ c.syncIndex ≤ c'.syncIndex) ∧
    (∀ (db : Db) (cid id : Int) (ch : ChannelRow),
      findChannel db cid = some ch → ch.syncIndex < id →
      ∀ r ∈ (dbAck db cid (.Global id)).syncRows,
        ∀ m, ((dbAck db cid (.Global id)).channels.map (·.syncIndex)).min? = some m →
          m < r.id) := by
  refine ⟨?_, ?_, ?_, ?_⟩
  · intro db cid id ch hfound hle
    simp only [dbAck, hfound]
    rw [if_pos hle]
  · intro db cid id ch hfound hlt
    rw [dbAck_global_update db cid id ch hfound hlt]
    unfold findChannel
    rw [removeOldPatches_channels]
    have hcomp : ∀ c : ChannelRow,
        ((if c.id == cid then { c with syncIndex := id } else c).id == cid) =
          (c.id == cid) := by
      intro c
      by_cases h : (c.id == cid) = true <;> simp [h]
    dsimp only
    rw [List.find?_map]
    have : (fun c : ChannelRow =>
        (if c.id == cid then { c with syncIndex := id } else c).id == cid) =
        (fun c : ChannelRow => c.id == cid) := funext hcomp
    rw [Function.comp_def]
    rw [this]
    rw [show db.channels.find? (fun c => c.id == cid) = some ch from hfound]
    have hch : (ch.id == cid) = true := by
      have := List.find?_some hfound
      simpa using this
    simp only [Option.map_some']
    rw [if_pos hch]
  · intro db cid sid hnodup c' hc'
    cases sid with
    | InitialSync i =>
      rw [dbAck_initialSync_channels] at hc'
      exact ⟨c', hc', rfl, le_refl _⟩
    | Global id =>
      cases hfound : findChannel db cid with
      | none =>
        simp only [dbAck, hfound] at hc'
        exact ⟨c', hc', rfl, le_refl _⟩
      | some ch =>
        by_cases hle : id ≤ ch.syncIndex
        · simp only [dbAck, hfound, if_pos hle] at hc'
          exact ⟨c', hc', rfl, le_refl _⟩
        · rw [dbAck_global_update db cid id ch hfound (not_le.mp hle),
            removeOldPatches_channels] at hc'
          obtain ⟨c, hc, hfc⟩ := List.mem_map.mp hc'
          by_cases hcid : (c.id == cid) = true
          · have hfound' : db.channels.find? (fun x => x.id == cid) = some ch := hfound
            have hceq : c = ch :=
              find?_eq_of_mem_of_nodup (·.id) db.channels cid c ch hfound' hc
                (beq_iff_eq.mp hcid) hnodup
            rw [if_pos hcid] at hfc
            refine ⟨c, hc, ?_, ?_⟩
            · rw [← hfc]
            · rw [← hfc]
              subst hceq
              exact le_of_lt (not_le.mp hle)
          · rw [if_neg hcid] at hfc
            subst hfc
            exact ⟨c, hc, rfl, le_refl _⟩
  · intro db cid id ch hfound hlt
    rw [dbAck_global_update db cid id ch hfound hlt]
    exact removeOldPatches_gc _

/-- A contact patch used to populate sample sync logs. -/
def c4Patch : Patch := .Contact ⟨[], "", CrdtWritable.default⟩

/-- A store with two channels (sync indexes 5 and 7) and two global sync
rows (ids 6 and 9). -/
def c4Db : Db :=
  { keys := [], contacts := [], conversations := [], members := [], messages := [],
    attachments := [], channels := [⟨1, 1, 1, 5⟩, ⟨2, 1, 2, 7⟩],
    syncRows := [⟨6, c4Patch⟩, ⟨9, c4Patch⟩], initialSyncRows := [] }

/-- Witness for C4: acking 3 on channel 1 (index 5) is a no-op; acking 6
updates the index to 6; after that update the surviving sync row 9 is
above the minimum index 6. -/
theorem ack_monotone_and_gc_witness :
    dbAck c4Db 1 (.Global 3) = c4Db ∧
    findChannel (dbAck c4Db 1 (.Global 6)) 1 = some ⟨1, 1, 1, 6⟩ ∧
    (6 : Int) < 9 := by
  refine ⟨?_, ?_, ?_⟩
  · exact ack_monotone_and_gc.1 c4Db 1 3 ⟨1, 1, 1, 5⟩ rfl (by decide)
  · exact ack_monotone_and_gc.2.1 c4Db 1 6 ⟨1, 1, 1, 5⟩ rfl (by decide)
  · exact ack_monotone_and_gc.2.2.2 c4Db 1 6 ⟨1, 1, 1, 5⟩ rfl (by decide)
      ⟨9, c4Patch⟩ (by decide) 6 (by decide)

/-! ## C8: the message-status sub-merge frame property -/

theorem conversationGetOrCreate_messages (db : Db) (u : Uuid) :
    ((conversationGetOrCreate db u).1).messages = db.messages := by
  unfold conversationGetOrCreate
  cases db.conversations.find? (fun c => c.uuid == u) <;> rfl

/-- A store with one message row (row id 7, uuid 9) in conversation row 1
and a second conversation row 2. -/
def c8Db : Db :=
  { keys := [], contacts := [],
    conversations := [⟨1, ⟨1⟩, none, 0, 0⟩, ⟨2, ⟨2⟩, none, 0, 0⟩],
    members := [],
    messages := [⟨7, ⟨9⟩, 0, 1, 1, "hi", none, 1, 5, 0, 0, 1⟩],
    attachments := [], channels := [], syncRows := [], initialSyncRows := [] }

/-- A status patch for message uuid 9 that names conversation uuid 2,
different from the conversation the row is stored under. -/
def c8Status : patch.MessageStatus :=
  { id := ⟨9⟩, conversation := ⟨2⟩, status := 1, crdt := ⟨1, ⟨7⟩⟩ }

/-- C8 counterexample: saving a status patch on an existing row also
writes the `conversation` column (the source sets it to the row id of the
patch's conversation), so the update is not confined to the status and
status-stamp columns: here the stored row's conversation moves from row 1
to row 2. -/
theorem messageStatus_save_moves_conversation_column :
    (messageStatusSave c8Db c8Status (messageStatusExistent c8Db c8Status.id)).messages.map
        (·.conversation) = [2] ∧
      c8Db.messages.map (·.conversation) = [1] := by
  constructor <;> rfl

/-- C8 (amended): saving a merged `MessageStatus` patch on an existing row
updates the status column, the status stamp columns and the conversation
column (set to the row id of the patch's conversation); the content
fields (uuid, text, from, attachment) and the content stamp
(crdt_generation, crdt_author, crdt_sequence) of the row are unchanged,
and rows other than the located one are untouched. -/
theorem messageStatus_save_frame :
    ∀ (db : Db) (status : patch.MessageStatus) (rowId : Int)
      (prev : patch.MessageStatus),
      ∀ m' ∈ (messageStatusSave db status (some (rowId, prev))).messages,
        ∃ m ∈ db.messages, m'.id = m.id ∧ m'.uuid = m.uuid ∧ m'.text = m.text ∧
          m'.fromKey = m.fromKey ∧ m'.attachment = m.attachment ∧
          m'.crdtGeneration = m.crdtGeneration ∧ m'.crdtAuthor = m.crdtAuthor ∧
          m'.crdtSequence = m.crdtSequence ∧
          ((m.id == rowId) = false → m' = m) ∧
          ((m.id == rowId) = true →
            m'.status = status.status ∧
            m'.statusCrdtGeneration = status.crdt.generation ∧
            m'.statusCrdtAuthor = status.crdt.author.val ∧
            m'.conversation = (conversationGetOrCreate db status.conversation).2.id) := by
  intro db status rowId prev m' hm'
  have hmsgs := conversationGetOrCreate_messages db status.conversation
  cases hgc : conversationGetOrCreate db status.conversation with
  | mk db₁ convRow =>
    rw [hgc] at hmsgs
    simp only [messageStatusSave, hgc] at hm'
    rw [hmsgs] at hm'
    obtain ⟨m, hm, hf⟩ := List.mem_map.mp hm'
    by_cases hid : (m.id == rowId) = true
    · rw [if_pos hid] at hf
      subst hf
      refine ⟨m, hm, rfl, rfl, rfl, rfl, rfl, rfl, rfl, rfl, ?_, ?_⟩
      · intro h
        rw [hid] at h
        cases h
      · intro _
        exact ⟨rfl, rfl, rfl, rfl⟩
    · rw [if_neg hid] at hf
      subst hf
      refine ⟨m, hm, rfl, rfl, rfl, rfl, rfl, rfl, rfl, rfl, fun _ => rfl, ?_⟩
      intro h
      exact absurd h hid

/-- Witness for C8 at the concrete store: the updated row keeps its
content fields and content stamp, carries the new status and status stamp,
and sits in the patch's conversation row. -/
theorem messageStatus_save_frame_witness :
    ∃ m ∈ c8Db.messages,
      (⟨7, ⟨9⟩, 1, 1, 2, "hi", none, 1, 5, 1, 7, 1⟩ : MessageRow).id = m.id ∧
      (⟨7, ⟨9⟩, 1, 1, 2, "hi", none, 1, 5, 1, 7, 1⟩ : MessageRow).uuid = m.uuid ∧
      (⟨7, ⟨9⟩, 1, 1, 2, "hi", none, 1, 5, 1, 7, 1⟩ : MessageRow).text = m.text ∧
      (⟨7, ⟨9⟩, 1, 1, 2, "hi", none, 1, 5, 1, 7, 1⟩ : MessageRow).fromKey = m.fromKey ∧
      (⟨7, ⟨9⟩, 1, 1, 2, "hi", none, 1, 5, 1, 7, 1⟩ : MessageRow).attachment = m.attachment ∧
      (⟨7, ⟨9⟩, 1, 1, 2, "hi", none, 1, 5, 1, 7, 1⟩ : MessageRow).crdtGeneration =
        m.crdtGeneration ∧
      (⟨7, ⟨9⟩, 1, 1, 2, "hi", none, 1, 5, 1, 7, 1⟩ : MessageRow).crdtAuthor = m.crdtAuthor ∧
      (⟨7, ⟨9⟩, 1, 1, 2, "hi", none, 1, 5, 1, 7, 1⟩ : MessageRow).crdtSequence =
        m.crdtSequence ∧
      ((m.id == (7 : Int)) = false →
        (⟨7, ⟨9⟩, 1, 1, 2, "hi", none, 1, 5, 1, 7, 1⟩ : MessageRow) = m) ∧
      ((m.id == (7 : Int)) = true →
        (⟨7, ⟨9⟩, 1, 1, 2, "hi", none, 1, 5, 1, 7, 1⟩ : MessageRow).status = c8Status.status ∧
        (⟨7, ⟨9⟩, 1, 1, 2, "hi", none, 1, 5, 1, 7, 1⟩ : MessageRow).statusCrdtGeneration =
          c8Status.crdt.generation ∧
        (⟨7, ⟨9⟩, 1, 1, 2, "hi", none, 1, 5, 1, 7, 1⟩ : MessageRow).statusCrdtAuthor =
          c8Status.crdt.author.val ∧
        (⟨7, ⟨9⟩, 1, 1, 2, "hi", none, 1, 5, 1, 7, 1⟩ : MessageRow).conversation =
          (conversationGetOrCreate c8Db c8Status.conversation).2.id) :=
  messageStatus_save_frame c8Db c8Status 7 ⟨⟨9⟩, ⟨1⟩, 0, ⟨0, ⟨0⟩⟩⟩
    ⟨7, ⟨9⟩, 1, 1, 2, "hi", none, 1, 5, 1, 7, 1⟩ (by decide)

/-! ## C7: sequence allocation on push -/

/-- C7: `push` stamps the message with `next(author)` of the existing
row's stamp (or of the default stamp when the id is new), with the
sequence set to one past the conversation's last sequence; the last
sequence is an upper bound of all sequences stored in the conversation,
and a push into a conversation storing no messages yields sequence 1. -/
theorem push_assigns_next_stamp_and_sequence :
    (∀ (db : Db) (author : Author) (msg : patch.NewMessage),
      (messagePush db author msg).2.crdt =
        { writable := (((messageExistent db msg.id).map (fun e => e.2.crdt)).getD
            CrdtWritableSequence.default).writable.next author,
          sequence :=
            ((messageLast db msg).2.getD CrdtWritableSequence.default).sequence + 1 }) ∧
    (∀ (db : Db) (msg : patch.NewMessage) (s : CrdtWritableSequence),
      (messageLast db msg).2 = some s →
      ∀ m ∈ db.messages,
        m.conversation = (conversationGetOrCreate db msg.conversation).2.id →
        m.crdtSequence ≤ s.sequence) ∧
    (∀ (db : Db) (author : Author) (msg : patch.NewMessage),
      (∀ m ∈ db.messages,
        m.conversation ≠ (conversationGetOrCreate db msg.conversation).2.id) →
      (messagePush db author msg).2.crdt.sequence = 1) := by
  have hmain : ∀ (db : Db) (author : Author) (msg : patch.NewMessage),
      (messagePush db author msg).2.crdt =
        { writable := (((messageExistent db msg.id).map (fun e => e.2.crdt)).getD
            CrdtWritableSequence.default).writable.next author,
          sequence :=
            ((messageLast db msg).2.getD CrdtWritableSequence.default).sequence + 1 } := by
    intro db author msg
    cases hml : messageLast db msg with
    | mk db₁ lastStamp =>
      simp only [messagePush, hml]
      rfl
  have hlast : ∀ (db : Db) (msg : patch.NewMessage),
      (messageLast db msg).2 =
        ((db.messages.filter (fun m =>
          m.conversation == (conversationGetOrCreate db msg.conversation).2.id)).argmax
            (·.crdtSequence)).map
          (fun m =>
            { writable := { generation := m.crdtGeneration, author := ⟨m.crdtAuthor⟩ },
              sequence := m.crdtSequence }) := by
    intro db msg
    have hmsgs := conversationGetOrCreate_messages db msg.conversation
    cases hgc : conversationGetOrCreate db msg.conversation with
    | mk db₁ convRow =>
      rw [hgc] at hmsgs
      have hmsgs' : db₁.messages = db.messages := hmsgs
      simp only [messageLast, hgc, hmsgs']
      cases (db.messages.filter (fun m => m.conversation == convRow.id)).argmax
          (·.crdtSequence) <;> rfl
  refine ⟨hmain, ?_, ?_⟩
  · intro db msg s hs m hm hconv
    rw [hlast] at hs
    cases hargmax : (db.messages.filter (fun m =>
        m.conversation == (conversationGetOrCreate db msg.conversation).2.id)).argmax
        (·.crdtSequence) with
    | none =>
      rw [hargmax] at hs
      cases hs
    | some m₀ =>
      rw [hargmax] at hs
      have hmem : m ∈ db.messages.filter (fun m =>
          m.conversation == (conversationGetOrCreate db msg.conversation).2.id) :=
        List.mem_filter.mpr ⟨hm, beq_iff_eq.mpr hconv⟩
      have hle := List.le_of_mem_argmax hmem hargmax
      have hseq : s.sequence = m₀.crdtSequence := by
        cases hs
        rfl
      rw [hseq]
      exact hle
  · intro db author msg hempty
    rw [hmain]
    have hfilter : db.messages.filter (fun m =>
        m.conversation == (conversationGetOrCreate db msg.conversation).2.id) = [] := by
      rw [List.filter_eq_nil_iff]
      intro m hm
      simpa using hempty m hm
    rw [hlast, hfilter]
    rfl

/-- The empty store. -/
def emptyDb : Db :=
  { keys := [], contacts := [], conversations := [], members := [], messages := [],
    attachments := [], channels := [], syncRows := [], initialSyncRows := [] }

/-- A fresh text message (zero stamp) for conversation uuid 1. -/
def c7Msg : patch.NewMessage :=
  { id := ⟨9⟩, fromKey := [], conversation := ⟨1⟩, text := "hi", attachment := none,
    crdt := CrdtWritableSequence.default }

/-- Witness for C7: pushing into the empty store yields sequence 1. -/
theorem push_assigns_next_stamp_and_sequence_witness :
    (messagePush emptyDb ⟨5⟩ c7Msg).2.crdt.sequence = 1 :=
  push_assigns_next_stamp_and_sequence.2.2 emptyDb ⟨5⟩ c7Msg
    (by intro m hm; simp [emptyDb] at hm)

/-! ## C5: the initial snapshot and its drain order -/

theorem id_lt_nextId (rows : List InitialSyncRow) (r₀ : InitialSyncRow)
    (h : r₀ ∈ rows) : r₀.id < nextId (rows.map (·.id)) := by
  unfold nextId
  have := le_foldr_max r₀.id (rows.map (·.id)) (List.mem_map_of_mem _ h)
  omega

theorem foldl_saveInitialPatch (ps : List Patch) (db : Db) (cid : Int) :
    ∃ rows, ps.foldl (fun db p => saveInitialPatch db cid p) db =
        { db with initialSyncRows := db.initialSyncRows ++ rows } ∧
      rows.map (·.payload) = ps ∧
      (rows.map (·.id)).Pairwise (· < ·) ∧
      (∀ r ∈ rows, r.channel = cid) ∧
      (∀ r₀ ∈ db.initialSyncRows, ∀ r ∈ rows, r₀.id < r.id) := by
  induction ps generalizing db with
  | nil =>
    exact ⟨[], by simp, rfl, by simp, by simp, by simp⟩
  | cons p ps ih =>
    obtain ⟨rows, h1, h2, h3, h4, h5⟩ := ih (saveInitialPatch db cid p)
    refine ⟨⟨nextId (db.initialSyncRows.map (·.id)), cid, p⟩ :: rows, ?_, ?_, ?_, ?_, ?_⟩
    · rw [List.foldl_cons, h1]
      show ({ db with initialSyncRows := (db.initialSyncRows ++
        [⟨nextId (db.initialSyncRows.map (·.id)), cid, p⟩]) ++ rows } : Db) = _
      rw [List.append_assoc]
      rfl
    · simp only [List.map_cons, h2]
    · rw [List.map_cons, List.pairwise_cons]
      refine ⟨?_, h3⟩
      intro b hb
      obtain ⟨r, hr, hrb⟩ := List.mem_map.mp hb
      have hlt := h5 ⟨nextId (db.initialSyncRows.map (·.id)), cid, p⟩
        (List.mem_append_right _ (List.mem_singleton_self _)) r hr
      rw [← hrb]
      exact hlt
    · intro r hr
      rcases List.mem_cons.mp hr with h | h
      · subst h
        rfl
      · exact h4 r h
    · intro r₀ hr₀ r hr
      rcases List.mem_cons.mp hr with h | h
      · subst h
        exact id_lt_nextId db.initialSyncRows r₀ hr₀
      · exact h5 r₀ (List.mem_append_left _ hr₀) r h

/-- C5: `initial_sync` appends to the channel's initial-sync queue, with
fresh strictly ascending ids all above the pre-existing rows, exactly the
patch sequence: the Conversation patch, every Contact patch, every Member
patch of that conversation, then for each Message its NewMessage patch
immediately followed by its MessageStatus patch; on a fresh
`(conversation, peer)` pair `create_channel` performs exactly that enqueue
on the store it has just set up; and the store's `next` returns the
minimal pending initial-sync row above the cursor, returning a global row
only when no initial-sync row is pending. -/
theorem initial_snapshot_order_and_drain :
    (∀ (db : Db) (cid : Int) (conversation : ConversationView),
      ∃ rows, initialSync db cid conversation =
          { db with initialSyncRows := db.initialSyncRows ++ rows } ∧
        rows.map (·.payload) = initialPatchList db conversation ∧
        (rows.map (·.id)).Pairwise (· < ·) ∧
        (∀ r ∈ rows, r.channel = cid) ∧
        (∀ r₀ ∈ db.initialSyncRows, ∀ r ∈ rows, r₀.id < r.id)) ∧
    (∀ (db : Db) (author : Author) (conversation : ConversationView) (peer : Key),
      (contactGetOrCreate db peer).1.channels.countP
        (fun c => c.conversation == conversation.id &&
          c.peer == (contactGetOrCreate db peer).2.1.id) = 0 →
      createChannel db author conversation peer =
        initialSync (createChannelSetup db author conversation peer).1
          (createChannelSetup db author conversation peer).2 conversation) ∧
    (∀ (db : Db) (cid : Int) (minimum : Int × Int) (r : InitialSyncRow),
      (eligibleInitial db cid minimum.1).argmin (·.id) = some r →
      dbNext db cid minimum = some { id := .InitialSync r.id, payload := r.payload } ∧
      ∀ r' ∈ eligibleInitial db cid minimum.1, r.id ≤ r'.id) ∧
    (∀ (db : Db) (cid : Int) (minimum : Int × Int) (sd : SyncData),
      eligibleInitial db cid minimum.1 = [] →
      dbNext db cid minimum = some sd → ∃ i, sd.id = SyncDataId.Global i) := by
  refine ⟨?_, ?_, ?_, ?_⟩
  · intro db cid conversation
    exact foldl_saveInitialPatch (initialPatchList db conversation) db cid
  · intro db author conversation peer hcount
    cases hgc : contactGetOrCreate db peer with
    | mk db₁ kc =>
      cases kc with
      | mk k c =>
        rw [hgc] at hcount
        simp only at hcount
        simp only [createChannel, hgc]
        rw [if_neg (by rw [hcount]; exact lt_irrefl 0)]
  · intro db cid minimum r hargmin
    constructor
    · simp only [dbNext, hargmin]
    · intro r' hr'
      exact List.le_of_mem_argmin hr' (Option.mem_def.mpr hargmin)
  · intro db cid minimum sd hempty hnext
    simp only [dbNext, hempty, List.argmin_nil] at hnext
    cases hfound : findChannel db cid with
    | none =>
      rw [hfound] at hnext
      cases hnext
    | some channel =>
      rw [hfound] at hnext
      dsimp only at hnext
      cases hhead : (db.syncRows.filter (fun r =>
          decide (channel.syncIndex < r.id) && decide (minimum.2 < r.id))).head? with
      | none =>
        rw [hhead] at hnext
        cases hnext
      | some row =>
        rw [hhead] at hnext
        cases hnext
        exact ⟨row.id, rfl⟩

/-- A store with one contact, one conversation (uuid 3), its member row
and one message, and no channels yet. -/
def c5Db : Db :=
  { keys := [⟨1, [1]⟩], contacts := [⟨1, "alice", 1, 5⟩],
    conversations := [⟨1, ⟨3⟩, some "t", 1, 5⟩],
    members := [⟨1, 1, 5⟩],
    messages := [⟨1, ⟨9⟩, 0, 1, 1, "hi", none, 1, 5, 0, 0, 1⟩],
    attachments := [], channels := [], syncRows := [], initialSyncRows := [] }

/-- The view of conversation uuid 3 of `c5Db`. -/
def c5Conv : ConversationView := ⟨1, ⟨3⟩, some "t", ⟨1, ⟨5⟩⟩⟩

/-- A store with one channel whose initial queue is fully drained past
cursor 3 and one pending global row 7. -/
def c5SyncDb : Db :=
  { keys := [], contacts := [], conversations := [], members := [], messages := [],
    attachments := [], channels := [⟨1, 1, 1, 0⟩], syncRows := [⟨7, c4Patch⟩],
    initialSyncRows := [⟨1, 1, c4Patch⟩] }

/-- Witness for C5: creating a channel to a fresh peer performs the
snapshot enqueue, and a drained initial queue makes `next` fall through to
a global row. -/
theorem initial_snapshot_order_and_drain_witness :
    (createChannel c5Db ⟨2⟩ c5Conv [2] =
      initialSync (createChannelSetup c5Db ⟨2⟩ c5Conv [2]).1
        (createChannelSetup c5Db ⟨2⟩ c5Conv [2]).2 c5Conv) ∧
    ∃ i, (SyncData.mk (.Global 7) c4Patch).id = SyncDataId.Global i := by
  constructor
  · exact initial_snapshot_order_and_drain.2.1 c5Db ⟨2⟩ c5Conv [2] rfl
  · exact initial_snapshot_order_and_drain.2.2.2 c5SyncDb 1 (3, 0)
      ⟨.Global 7, c4Patch⟩ rfl rfl

/-! ## C10: idempotence of create_channel -/

theorem keyGetOrCreate_found (db : Db) (key : Key) :
    ((keyGetOrCreate db key).1).keys.find? (fun k => k.public == key) =
      some (keyGetOrCreate db key).2 := by
  unfold keyGetOrCreate
  cases hf : db.keys.find? (fun k => k.public == key) with
  | some k => exact hf
  | none =>
    dsimp only
    rw [List.find?_append, hf]
    simp

theorem contactGetOrCreate_key_found (db : Db) (key : Key) :
    ((contactGetOrCreate db key).1).keys.find? (fun x => x.public == key) =
      some ((contactGetOrCreate db key).2.1) := by
  unfold contactGetOrCreate
  cases hkg : keyGetOrCreate db key with
  | mk dbk kk =>
    dsimp only
    have hfound : dbk.keys.find? (fun x => x.public == key) = some kk := by
      have h := keyGetOrCreate_found db key
      rw [hkg] at h
      exact h
    cases dbk.contacts.find? (fun c => c.key == kk.id) <;> exact hfound

theorem contactGetOrCreate_contact_found (db : Db) (key : Key) :
    ((contactGetOrCreate db key).1).contacts.find?
      (fun x => x.key == ((contactGetOrCreate db key).2.1).id) =
      some ((contactGetOrCreate db key).2.2) := by
  unfold contactGetOrCreate
  cases hkg : keyGetOrCreate db key with
  | mk dbk kk =>
    dsimp only
    cases hf : dbk.contacts.find? (fun c => c.key == kk.id) with
    | some c => exact hf
    | none =>
      dsimp only
      rw [List.find?_append, hf]
      simp

/-- A second get-or-create of the same contact on any store holding the
same key and contact tables finds the first call's rows and writes
nothing. -/
theorem contactGetOrCreate_stable (db db' : Db) (key : Key) (db₁ : Db) (k : KeyRow)
    (c : ContactRow) (hgc : contactGetOrCreate db key = (db₁, k, c))
    (hk : db'.keys = db₁.keys) (hc : db'.contacts = db₁.contacts) :
    contactGetOrCreate db' key = (db', k, c) := by
  have hkf : db'.keys.find? (fun x => x.public == key) = some k := by
    rw [hk]
    have h := contactGetOrCreate_key_found db key
    rw [hgc] at h
    exact h
  have hcf : db'.contacts.find? (fun x => x.key == k.id) = some c := by
    rw [hc]
    have h := contactGetOrCreate_contact_found db key
    rw [hgc] at h
    exact h
  have hkey : keyGetOrCreate db' key = (db', k) := by
    unfold keyGetOrCreate
    rw [hkf]
  unfold contactGetOrCreate
  rw [hkey]
  dsimp only
  rw [hcf]

theorem conversationGetOrCreate_frame (db : Db) (u : Uuid) :
    ((conversationGetOrCreate db u).1).keys = db.keys ∧
    ((conversationGetOrCreate db u).1).contacts = db.contacts ∧
    ((conversationGetOrCreate db u).1).members = db.members ∧
    ((conversationGetOrCreate db u).1).channels = db.channels := by
  unfold conversationGetOrCreate
  cases db.conversations.find? (fun c => c.uuid == u) <;> exact ⟨rfl, rfl, rfl, rfl⟩

/-- Merging a member patch whose contact was just created leaves the key,
contact and channel tables unchanged. -/
theorem mergeNewMemberPatch_preserves (db₀ db₁ : Db) (k : KeyRow) (c : ContactRow)
    (p : patch.Member) (hgc : contactGetOrCreate db₀ p.key = (db₁, k, c)) :
    (mergeNewMemberPatch db₁ p).keys = db₁.keys ∧
    (mergeNewMemberPatch db₁ p).contacts = db₁.contacts ∧
    (mergeNewMemberPatch db₁ p).channels = db₁.channels := by
  have hstab₁ : contactGetOrCreate db₁ p.key = (db₁, k, c) :=
    contactGetOrCreate_stable db₀ db₁ p.key db₁ k c hgc rfl rfl
  unfold mergeNewMemberPatch memberMerge memberExistent
  rw [hstab₁]
  dsimp only
  cases hcv : conversationGetOrCreate db₁ p.conversation with
  | mk dbF convRow =>
    have hfr := conversationGetOrCreate_frame db₁ p.conversation
    rw [hcv] at hfr
    obtain ⟨hfk, hfc, hfm, hfch⟩ := hfr
    cases dbF.members.find? (fun m => m.contact == k.id && m.conversation == convRow.id) with
    | some m => exact ⟨hfk, hfc, hfch⟩
    | none =>
      dsimp only
      unfold memberSaveNew
      have hstabF : contactGetOrCreate dbF p.key = (dbF, k, c) :=
        contactGetOrCreate_stable db₀ dbF p.key db₁ k c hgc hfk hfc
      rw [hstabF]
      dsimp only
      cases hcv2 : conversationGetOrCreate dbF p.conversation with
      | mk dbG convRow₂ =>
        have hfr2 := conversationGetOrCreate_frame dbF p.conversation
        rw [hcv2] at hfr2
        obtain ⟨hgk, hgc2, hgm, hgch⟩ := hfr2
        unfold savePatchForSync
        exact ⟨hgk.trans hfk, hgc2.trans hfc, hgch.trans hfch⟩

/-- The committing setup of `create_channel` keeps the key and contact
tables of the get-or-create stage and appends exactly one channel row for
the pair, carrying the fresh channel id. -/
theorem createChannelSetup_parts (db : Db) (a : Author) (conv : ConversationView)
    (peer : Key) (db₁ : Db) (k : KeyRow) (c : ContactRow)
    (hgc : contactGetOrCreate db peer = (db₁, k, c)) :
    (createChannelSetup db a conv peer).1.keys = db₁.keys ∧
    (createChannelSetup db a conv peer).1.contacts = db₁.contacts ∧
    ∃ si, (createChannelSetup db a conv peer).1.channels =
      db₁.channels ++ [⟨(createChannelSetup db a conv peer).2, conv.id, k.id, si⟩] := by
  have hpm := mergeNewMemberPatch_preserves db db₁ k c
    { key := peer, conversation := conv.uuid, crdt := ⟨a⟩ } hgc
  unfold createChannelSetup
  rw [hgc]
  dsimp only
  exact ⟨hpm.1, hpm.2.1,
    ⟨currentSyncIndex (mergeNewMemberPatch db₁
      { key := peer, conversation := conv.uuid, crdt := ⟨a⟩ }), by rw [hpm.2.2]⟩⟩

theorem initialSync_preserves (db : Db) (cid : Int) (conv : ConversationView) :
    (initialSync db cid conv).keys = db.keys ∧
    (initialSync db cid conv).contacts = db.contacts ∧
    (initialSync db cid conv).channels = db.channels := by
  obtain ⟨rows, heq, -, -, -, -⟩ := foldl_saveInitialPatch (initialPatchList db conv) db cid
  unfold initialSync
  rw [heq]
  exact ⟨rfl, rfl, rfl⟩

/-- C10: `create_channel` on an already-existing `(conversation, peer)`
pair returns with the transaction uncommitted, leaving the store exactly
as it was; consequently running `create_channel` twice with the same
arguments leaves the store as after one run. -/
theorem createChannel_idempotent :
    (∀ (db : Db) (author : Author) (conversation : ConversationView) (peer : Key),
      0 < (contactGetOrCreate db peer).1.channels.countP
        (fun c => c.conversation == conversation.id &&
          c.peer == (contactGetOrCreate db peer).2.1.id) →
      createChannel db author conversation peer = db) ∧
    (∀ (db : Db) (author : Author) (conversation : ConversationView) (peer : Key),
      createChannel (createChannel db author conversation peer) author conversation peer =
        createChannel db author conversation peer) := by
  constructor
  · intro db a conv peer hpos
    cases hgc : contactGetOrCreate db peer with
    | mk db₁ kc =>
      cases kc with
      | mk k c =>
        rw [hgc] at hpos
        simp only [createChannel, hgc]
        rw [if_pos hpos]
  · intro db a conv peer
    cases hgc : contactGetOrCreate db peer with
    | mk db₁ kc =>
      cases kc with
      | mk k c =>
        by_cases hcount : 0 < db₁.channels.countP
          (fun ch => ch.conversation == conv.id && ch.peer == k.id)
        · have h1 : createChannel db a conv peer = db := by
            simp only [createChannel, hgc]
            rw [if_pos hcount]
          rw [h1]
          exact h1
        · have h1 : createChannel db a conv peer =
              initialSync (createChannelSetup db a conv peer).1
                (createChannelSetup db a conv peer).2 conv := by
            simp only [createChannel, hgc]
            rw [if_neg hcount]
          have hsetup := createChannelSetup_parts db a conv peer db₁ k c hgc
          obtain ⟨hsk, hsc, si, hsch⟩ := hsetup
          have hpres := initialSync_preserves (createChannelSetup db a conv peer).1
            (createChannelSetup db a conv peer).2 conv
          have hkeys : (createChannel db a conv peer).keys = db₁.keys := by
            rw [h1, hpres.1, hsk]
          have hcontacts : (createChannel db a conv peer).contacts = db₁.contacts := by
            rw [h1, hpres.2.1, hsc]
          have hchannels : (createChannel db a conv peer).channels =
              db₁.channels ++
                [⟨(createChannelSetup db a conv peer).2, conv.id, k.id, si⟩] := by
            rw [h1, hpres.2.2, hsch]
          have hstable : contactGetOrCreate (createChannel db a conv peer) peer =
              (createChannel db a conv peer, k, c) :=
            contactGetOrCreate_stable db (createChannel db a conv peer) peer db₁ k c
              hgc hkeys hcontacts
          have hpos : 0 < (createChannel db a conv peer).channels.countP
              (fun ch => ch.conversation == conv.id && ch.peer == k.id) := by
            rw [List.countP_pos_iff]
            refine ⟨⟨(createChannelSetup db a conv peer).2, conv.id, k.id, si⟩, ?_, ?_⟩
            · rw [hchannels]
              exact List.mem_append_right _ (List.mem_singleton_self _)
            · simp
          revert hstable hpos
          generalize createChannel db a conv peer = dbDone
          intro hstable hpos
          simp only [createChannel, hstable]
          rw [if_pos hpos]

/-- Witness for C10 on the concrete store of C5: a second `create_channel`
with the same arguments is a no-op, and on the store that already has the
channel the call leaves the store unchanged. -/
theorem createChannel_idempotent_witness :
    createChannel (createChannel c5Db ⟨2⟩ c5Conv [2]) ⟨2⟩ c5Conv [2] =
      createChannel c5Db ⟨2⟩ c5Conv [2] :=
  createChannel_idempotent.2 c5Db ⟨2⟩ c5Conv [2]

end Icechat
